import Mathlib

set_option autoImplicit false

/-!
# grouped_process_exporter: grouping strategies and the sample-emission pass

A shallow embedding of

* `grouper/cgroup/cgroup.go` (`Cgroup.Collect`, `SetNormalizeRegexp`, `SetExcludeRegexp`),
* `cmd/root.go` (`runRoot`),
* `collector/collector.go` (`GroupedProcCollector.Collect`),

together with a model of the process-name strategy, whose implementation file is
not part of the sources at hand.

Conventions.  Go strings are `String`; the pieces of the Go standard library the
code calls (`strings.Replace`, `filepath.Clean`, `filepath.Join`, `strconv.Atoi`)
are written out over character lists.  The file system, the compiled regular
expressions and the weighted semaphore are the environment: a walk is the
sequence of callback invocations `filepath.Walk` makes, a regular expression is
its matching functions, and every `Acquire` call site carries its outcome.
A run of `Collect` yields the table, the error returned and the trace of the
effects performed, in program order.
-/

namespace GroupedProcessExporter

/-! ## Standard-library functions the sources call -/

/-- Replace the first occurrence of `old` in a character list by `new`. -/
def replaceFirstChars (old new : List Char) : List Char → List Char
  | [] => if old.isEmpty then new else []
  | c :: t =>
    if old.isPrefixOf (c :: t) then new ++ (c :: t).drop old.length
    else c :: replaceFirstChars old new t

/-- Go `strings.Replace(s, old, new, 1)`. -/
def stringsReplace1 (s old new : String) : String :=
  String.mk (replaceFirstChars old.data new.data s.data)

/-- Split a character list at every slash; `cur` is the element being read, reversed. -/
def splitSlash (cur : List Char) : List Char → List (List Char)
  | [] => [cur.reverse]
  | c :: t => if c = '/' then cur.reverse :: splitSlash [] t else splitSlash (c :: cur) t

/-- The element loop of `filepath.Clean`: `out` is the stack of kept elements, last first. -/
def cleanElems (rooted : Bool) (out : List (List Char)) : List (List Char) → List (List Char)
  | [] => out.reverse
  | e :: es =>
    if e = [] ∨ e = ['.'] then cleanElems rooted out es
    else if e = ['.', '.'] then
      match out with
      | top :: rest =>
        if top = ['.', '.'] then cleanElems rooted (e :: out) es
        else cleanElems rooted rest es
      | [] => if rooted then cleanElems rooted [] es else cleanElems rooted [e] es
    else cleanElems rooted (e :: out) es

/-- Go `filepath.Clean` on a slash-separated path. -/
def filepathClean (p : String) : String :=
  let rooted := p.data.head? = some '/'
  let body := List.intercalate ['/'] (cleanElems rooted [] (splitSlash [] p.data))
  let r := (if rooted then ['/'] else []) ++ body
  if r = [] then "." else String.mk r

/-- Go `filepath.Join(a, b)`: empty leading elements are ignored, the rest is joined
with a slash and cleaned. -/
def filepathJoin (a b : String) : String :=
  if a ≠ "" then filepathClean (a ++ "/" ++ b)
  else if b ≠ "" then filepathClean b
  else ""

/-- Value of a run of decimal digits, `none` when a character is not a digit. -/
def parseDigits (acc : Nat) : List Char → Option Nat
  | [] => some acc
  | c :: t =>
    if '0' ≤ c ∧ c ≤ '9' then parseDigits (acc * 10 + (c.toNat - 48)) t else none

/-- Go `strconv.Atoi` on a 64-bit platform: an optional sign, at least one decimal
digit, nothing else, and a value that fits `int`; `none` stands for the error. -/
def Atoi (s : String) : Option Int :=
  match s.data with
  | [] => none
  | '-' :: ds =>
    if ds = [] then none
    else match parseDigits 0 ds with
      | some n => if n ≤ 2 ^ 63 then some (-(n : Int)) else none
      | none => none
  | '+' :: ds =>
    if ds = [] then none
    else match parseDigits 0 ds with
      | some n => if n < 2 ^ 63 then some (n : Int) else none
      | none => none
  | ds =>
    match parseDigits 0 ds with
    | some n => if n < 2 ^ 63 then some (n : Int) else none
    | none => none

/-- A compiled `*regexp.Regexp`, as far as the sources use it. -/
structure Regexp where
  /-- `NumSubexp()`: the number of parenthesized subexpressions. -/
  NumSubexp : Nat
  /-- `MatchString(s)`. -/
  MatchString : String → Bool
  /-- `FindStringSubmatch(s)`: the leftmost match and its captures, `[]` for no match. -/
  FindStringSubmatch : String → List String

/-! ## Records and the table -/

/-- The metric kinds (`metric.ProcStat`, `metric.ProcIO`). -/
inductive MetricKey where
  | ProcStat
  | ProcIO
  deriving DecidableEq, Repr

/-- A `grouped_proc.GroupedProc` with accumulators of type `M`. -/
structure GroupedProc (M : Type) where
  Enabled : MetricKey → Bool
  Metrics : List (MetricKey × M)
  Exists : Bool
  RequiredWeight : Nat

/-- The table from group name to record. -/
abbrev GroupedProcs (M : Type) := List (String × GroupedProc M)

/-- `gprocs.Load(key)`. -/
def GroupedProcs.Load {M : Type} (t : GroupedProcs M) (key : String) : Option (GroupedProc M) :=
  match t with
  | [] => none
  | (k, v) :: rest => if k = key then some v else GroupedProcs.Load rest key

/-- `gprocs.Store(key, v)`: replaces the binding of `key`, or adds one. -/
def GroupedProcs.Store {M : Type} (t : GroupedProcs M) (key : String) (v : GroupedProc M) :
    GroupedProcs M :=
  match t with
  | [] => [(key, v)]
  | (k, w) :: rest =>
    if k = key then (k, v) :: rest else (k, w) :: GroupedProcs.Store rest key v

/-- The group names of a table. -/
def GroupedProcs.keys {M : Type} (t : GroupedProcs M) : List String := t.map Prod.fst

/-! ## The control-group strategy (`grouper/cgroup/cgroup.go`) -/

/-- Subsystems cgroups subsystems list. -/
def Subsystems : List String :=
  ["cpuset", "cpu", "cpuacct", "blkio", "memory", "devices", "freezer",
   "net_cls", "net_prio", "perf_event", "hugetlb", "pids", "rdma"]

/-- The `Cgroup` grouper. -/
structure Cgroup where
  fsPath : String
  nRe : Option Regexp
  eRe : Option Regexp

/-- `NewCgroup(fsPath)`. -/
def NewCgroup (fsPath : String) : Cgroup := { fsPath := fsPath, nRe := none, eRe := none }

/-- `Cgroup.Name()`. -/
def Cgroup.Name (_c : Cgroup) : String := "cgroup"

/-- The error text of `SetNormalizeRegexp` for a wrong number of subexpressions. -/
def subexpError : String :=
  "number of parenthesized subexpressions in this regexp should be 1"

/-- `Cgroup.SetNormalizeRegexp(nReStr)`; `compile` is `regexp.Compile`. -/
def Cgroup.SetNormalizeRegexp (compile : String → Except String Regexp) (c : Cgroup)
    (nReStr : String) : Except String Cgroup :=
  if nReStr = "" then .ok c
  else match compile nReStr with
    | .error err => .error err
    | .ok nRe =>
      if nRe.NumSubexp ≠ 1 then .error subexpError
      else .ok { c with nRe := some nRe }

/-- `Cgroup.SetExcludeRegexp(eReStr)`; `compile` is `regexp.Compile`. -/
def Cgroup.SetExcludeRegexp (compile : String → Except String Regexp) (c : Cgroup)
    (eReStr : String) : Except String Cgroup :=
  if eReStr = "" then .ok c
  else match compile eReStr with
    | .error err => .error err
    | .ok eRe => .ok { c with eRe := some eRe }

/-- One line of a membership file as `ReadLine` returns it, with the outcome of the
`sem.Acquire(ctx, gproc.RequiredWeight)` issued for it when the line parses. -/
structure Line where
  text : String
  acquireOk : Bool
  deriving DecidableEq, Repr

/-- A membership file (`cgroup.procs`) that opened: its lines, and whether reading
ends in a read error (`true`) or in `io.EOF` (`false`). -/
structure ProcsFile where
  lines : List Line
  readErr : Bool
  deriving DecidableEq, Repr

/-- One invocation of the walk callback by `filepath.Walk`. -/
structure Entry where
  /-- The `path` argument. -/
  path : String
  /-- The `err` argument is non-nil. -/
  walkErr : Bool
  /-- The `f` argument: `none` for nil, else whether `f.IsDir()`. -/
  info : Option Bool
  /-- Outcome of `sem.Acquire(ctx, 2)` for this entry. -/
  acquireOk : Bool
  /-- Outcome of opening `path/cgroup.procs`: `none` when `os.Open` fails. -/
  procs : Option ProcsFile
  deriving DecidableEq, Repr

/-- The errors the walk callback returns. -/
inductive CollectError where
  /-- `sem.Acquire` failed. -/
  | acquire
  /-- `reader.ReadLine` failed with an error other than `io.EOF`. -/
  | read
  /-- `strconv.Atoi` failed on the given line. -/
  | atoi (line : String)
  deriving DecidableEq, Repr

/-- The effects of a collection cycle. -/
inductive Event where
  /-- A successful `sem.Acquire(ctx, w)`. -/
  | acquire (w : Nat)
  /-- The deferred `sem.Release(w)` of the walk callback. -/
  | release (w : Nat)
  /-- A successful `os.Open` of a membership file. -/
  | opened (file : String)
  /-- A failed `os.Open` of a membership file. -/
  | openFailed (file : String)
  /-- `f.Close()` on an opened membership file. -/
  | closed (file : String)
  /-- `f.Close()` on the handle of a failed open. -/
  | closedInvalid (file : String)
  /-- `gprocs.Load(key)` and whether it found a record. -/
  | load (key : String) (found : Bool)
  /-- `gprocs.Store(key, gproc)`. -/
  | store (key : String)
  /-- `gproc.Exists = true` on the record of `key`. -/
  | markExists (key : String)
  /-- `wg.Add(1)` and the start of the goroutine that calls
  `AppendProcAndCollect(pid)` on the record of `key`, then `sem.Release(w)`, then `wg.Done()`. -/
  | spawn (key : String) (pid : Int) (w : Nat)
  /-- The call `wg.Wait()`. -/
  | wait
  deriving DecidableEq, Repr

/-- What a piece of `Collect` leaves behind. -/
structure Outcome (M : Type) where
  table : GroupedProcs M
  trace : List Event
  err : Option CollectError

/-- The read loop of the walk callback (`for { line, _, err := reader.ReadLine() ... }`). -/
def readLoop (file key : String) (w : Nat) (readErr : Bool) :
    List Line → List Event × Option CollectError
  | [] => if readErr then ([.closed file], some .read) else ([], none)
  | l :: rest =>
    match Atoi l.text with
    | none => ([.closed file], some (.atoi l.text))
    | some pid =>
      if l.acquireOk then
        let r := readLoop file key w readErr rest
        (.acquire w :: .spawn key pid w :: r.1, r.2)
      else ([.closed file], some .acquire)

/-- The relative path of a walked entry: `strings.Replace(path, searchDir, "", 1)`. -/
def relPath (searchDir path : String) : String := stringsReplace1 path searchDir ""

/-- The exclude test `c.eRe != nil && c.eRe.MatchString(cPath)`. -/
def Cgroup.excluded (c : Cgroup) (cPath : String) : Bool :=
  match c.eRe with
  | some eRe => eRe.MatchString cPath
  | none => false

/-- The normalize step: `matches[1]` when `FindStringSubmatch` returns more than one
element, the path unchanged otherwise. -/
def Cgroup.normalize (c : Cgroup) (cPath : String) : String :=
  match c.nRe with
  | some nRe =>
    match nRe.FindStringSubmatch cPath with
    | _ :: m1 :: _ => m1
    | _ => cPath
  | none => cPath

/-- The body of the walk callback after the traversal weight is taken
(`if f.IsDir() { ... } return nil`). -/
def inspect {M : Type} (c : Cgroup) (NewGroupedProc : (MetricKey → Bool) → GroupedProc M)
    (enabled : MetricKey → Bool) (searchDir : String) (tbl : GroupedProcs M)
    (path : String) (isDir : Bool) (procs : Option ProcsFile) : Outcome M :=
  if isDir then
    let cPath := relPath searchDir path
    if c.excluded cPath then ⟨tbl, [], none⟩
    else
      let cPath := c.normalize cPath
      if cPath ≠ "" then
        let file := filepathClean (filepathJoin path "cgroup.procs")
        match procs with
        | none => ⟨tbl, [.openFailed file, .closedInvalid file], none⟩
        | some pf =>
          let found := tbl.Load cPath
          let gproc := match found with
            | some g => g
            | none => NewGroupedProc enabled
          let tbl1 := match found with
            | some _ => tbl
            | none => tbl.Store cPath gproc
          let evs1 := match found with
            | some _ => [Event.load cPath true]
            | none => [Event.load cPath false, Event.store cPath]
          let gproc1 := { gproc with Exists := true }
          let tbl2 := tbl1.Store cPath gproc1
          let r := readLoop file cPath gproc1.RequiredWeight pf.readErr pf.lines
          ⟨tbl2, [Event.opened file] ++ evs1 ++ [Event.markExists cPath] ++ r.1, r.2⟩
      else ⟨tbl, [], none⟩
  else ⟨tbl, [], none⟩

/-- The walk callback of `Collect`. -/
def walkFn {M : Type} (c : Cgroup) (NewGroupedProc : (MetricKey → Bool) → GroupedProc M)
    (enabled : MetricKey → Bool) (searchDir : String) (tbl : GroupedProcs M)
    (e : Entry) : Outcome M :=
  if e.walkErr then ⟨tbl, [], none⟩
  else match e.info with
    | none => ⟨tbl, [], none⟩
    | some isDir =>
      if e.acquireOk then
        let r := inspect c NewGroupedProc enabled searchDir tbl e.path isDir e.procs
        ⟨r.table, [Event.acquire 2] ++ r.trace ++ [Event.release 2], r.err⟩
      else ⟨tbl, [], some .acquire⟩

/-- Go `filepath.Walk` over the callback invocations it makes: it stops at the first
invocation that returns an error and returns that error. -/
def Walk {M : Type} (fn : GroupedProcs M → Entry → Outcome M) :
    GroupedProcs M → List Entry → Outcome M
  | tbl, [] => ⟨tbl, [], none⟩
  | tbl, e :: es =>
    let r := fn tbl e
    match r.err with
    | some err => ⟨r.table, r.trace, some err⟩
    | none =>
      let r2 := Walk fn r.table es
      ⟨r2.table, r.trace ++ r2.trace, r2.err⟩

/-- The directory walked for a subsystem: `filepath.Clean(filepath.Join(c.fsPath, s))`. -/
def Cgroup.searchDir (c : Cgroup) (s : String) : String :=
  filepathClean (filepathJoin c.fsPath s)

/-- The loop `for _, s := range Subsystems` of `Collect`, followed by `wg.Wait()`. -/
def collectLoop {M : Type} (c : Cgroup) (NewGroupedProc : (MetricKey → Bool) → GroupedProc M)
    (enabled : MetricKey → Bool) (fs : String → List Entry) :
    GroupedProcs M → List String → Outcome M
  | tbl, [] => ⟨tbl, [.wait], none⟩
  | tbl, s :: ss =>
    let r := Walk (walkFn c NewGroupedProc enabled (c.searchDir s)) tbl (fs (c.searchDir s))
    match r.err with
    | some err => ⟨r.table, r.trace, some err⟩
    | none =>
      let r2 := collectLoop c NewGroupedProc enabled fs r.table ss
      ⟨r2.table, r.trace ++ r2.trace, r2.err⟩

/-- `Cgroup.Collect(gprocs, enabled, sem)`; `fs` gives, for a directory, the callback
invocations of `filepath.Walk` rooted there. -/
def Cgroup.Collect {M : Type} (c : Cgroup)
    (NewGroupedProc : (MetricKey → Bool) → GroupedProc M)
    (fs : String → List Entry) (gprocs : GroupedProcs M) (enabled : MetricKey → Bool) :
    Outcome M :=
  collectLoop c NewGroupedProc enabled fs gprocs Subsystems

/-! ## Observations on a trace -/

/-- The process IDs folded into the record of group `g`: one per spawned read, since the
goroutine of a `spawn` calls `AppendProcAndCollect(pid)` exactly once. -/
def foldsOf (g : String) (tr : List Event) : List Int :=
  tr.filterMap (fun ev => match ev with
    | .spawn k pid _ => if k = g then some pid else none
    | _ => none)

/-- The accumulated total of group `g` for a field, folding being the addition of the
reading of the field for the process. -/
def groupTotal (reading : Int → Nat) (g : String) (tr : List Event) : Nat :=
  ((foldsOf g tr).map reading).sum

/-- The process IDs for which a read was spawned, in order. -/
def spawnedPids (tr : List Event) : List Int :=
  tr.filterMap (fun ev => match ev with
    | .spawn _ pid _ => some pid
    | _ => none)

/-- The weights of the successful acquisitions. -/
def acquiredWeights (tr : List Event) : List Nat :=
  tr.filterMap (fun ev => match ev with
    | .acquire w => some w
    | _ => none)

/-- The weights released: by the deferred release of the walk callback, and by each
spawned read when it completes. -/
def releasedWeights (tr : List Event) : List Nat :=
  tr.filterMap (fun ev => match ev with
    | .release w => some w
    | .spawn _ _ w => some w
    | _ => none)

/-- The outstanding weight of the limiter once the effects of a trace have taken place
and every spawned read has completed, from the outstanding weight `held` before. -/
def limiterAfter (held : Int) : List Event → Int
  | [] => held
  | .acquire w :: tr => limiterAfter (held + w) tr
  | .release w :: tr => limiterAfter (held - w) tr
  | .spawn _ _ w :: tr => limiterAfter (held - w) tr
  | _ :: tr => limiterAfter held tr

/-! ## Membership as the file system gives it -/

/-- The group name under which a walked entry is a group candidate: a directory whose
relative path is not excluded and, after normalization, not empty. -/
def Cgroup.candidateKey (c : Cgroup) (searchDir : String) (e : Entry) : Option String :=
  if e.walkErr then none
  else match e.info with
    | some true =>
      if c.excluded (relPath searchDir e.path) then none
      else if c.normalize (relPath searchDir e.path) = "" then none
      else some (c.normalize (relPath searchDir e.path))
    | _ => none

/-- The process IDs listed in a membership file, one per line that parses. -/
def ProcsFile.pids (pf : ProcsFile) : List Int := pf.lines.filterMap (fun l => Atoi l.text)

/-- The process IDs the membership file of a walked entry contributes to group `g`. -/
def Cgroup.entryMembers (c : Cgroup) (searchDir g : String) (e : Entry) : List Int :=
  if c.candidateKey searchDir e = some g then
    match e.procs with
    | some pf => pf.pids
    | none => []
  else []

/-- The process IDs the membership files under one subsystem contribute to group `g`. -/
def Cgroup.walkMembers (c : Cgroup) (searchDir g : String) : List Entry → List Int
  | [] => []
  | e :: es => c.entryMembers searchDir g e ++ Cgroup.walkMembers c searchDir g es

/-- The member occurrences of group `g` over the given subsystems: every line of every
membership file of a directory whose group name is `g`. -/
def Cgroup.membersIn (c : Cgroup) (fs : String → List Entry) (g : String) :
    List String → List Int
  | [] => []
  | s :: ss => c.walkMembers (c.searchDir s) g (fs (c.searchDir s)) ++ Cgroup.membersIn c fs g ss

/-- The member occurrences of group `g`, over all subsystems. -/
def Cgroup.memberOccurrences (c : Cgroup) (fs : String → List Entry) (g : String) : List Int :=
  c.membersIn fs g Subsystems

/-- The member process IDs of group `g`, each once. -/
def Cgroup.memberPids (c : Cgroup) (fs : String → List Entry) (g : String) : List Int :=
  (c.memberOccurrences fs g).dedup

/-- The lines of a membership file before the first one that is not a process ID. -/
def linesBeforeBad (ls : List Line) : List Line :=
  ls.takeWhile (fun l => (Atoi l.text).isSome)

/-! ## The process-name strategy -/

/-- Modelled from the spec: the process-name grouper, whose file
`grouper/proc_status_name/proc_status_name.go` is missing; it reads a process root that a
configured mount point can override. -/
structure ProcStatusName where
  procMountPoint : String

/-- Modelled from the spec: `NewProcStatusName()` of the missing file, with the default
process root. -/
def NewProcStatusName : ProcStatusName := { procMountPoint := "/proc" }

/-- An entry directly under the process root: its name, and the registered name its
status record gives (`none` when the record cannot be read). -/
structure ProcEntry where
  name : String
  status : Option String
  deriving DecidableEq, Repr

/-- A numeric entry name: one or more decimal digits. -/
def isNumericName (s : String) : Bool :=
  !s.data.isEmpty && s.data.all (fun ch => decide ('0' ≤ ch ∧ ch ≤ '9'))

/-- What a cycle of the process-name strategy leaves behind. -/
structure NameOutcome (M : Type) where
  table : GroupedProcs M
  folds : List (String × String)
  err : Option String

/-- Modelled from the spec: one entry of the process-name cycle of the missing file.  A
numeric entry whose status record gives a registered name has the record of that name
looked up or created, marked as existing, and the process folded into it; any other
entry contributes nothing. -/
def ProcStatusName.visit {M : Type} (NewGroupedProc : (MetricKey → Bool) → GroupedProc M)
    (enabled : MetricKey → Bool) (acc : NameOutcome M) (e : ProcEntry) : NameOutcome M :=
  if isNumericName e.name then
    match e.status with
    | none => acc
    | some nm =>
      let gproc := match acc.table.Load nm with
        | some g => g
        | none => NewGroupedProc enabled
      { acc with
        table := acc.table.Store nm { gproc with Exists := true }
        folds := acc.folds ++ [(nm, e.name)] }
  else acc

/-- Modelled from the spec: `ProcStatusName.Collect` of the missing file, with the arguments
its test gives it (the table and the enabled kinds, no limiter).  It iterates the entries
directly under the process root (`none`: the root cannot be read, which a cycle
tolerates) and returns no error. -/
def ProcStatusName.Collect {M : Type} (_p : ProcStatusName)
    (NewGroupedProc : (MetricKey → Bool) → GroupedProc M)
    (root : Option (List ProcEntry)) (gprocs : GroupedProcs M) (enabled : MetricKey → Bool) :
    NameOutcome M :=
  match root with
  | none => ⟨gprocs, [], none⟩
  | some entries =>
    entries.foldl (ProcStatusName.visit NewGroupedProc enabled) ⟨gprocs, [], none⟩

/-! ## The command (`cmd/root.go`) -/

/-- The groupers `runRoot` selects from. -/
inductive Grouper where
  | cgroup (c : Cgroup)
  | name (p : ProcStatusName)

/-- `g.SetNormalizeRegexp(nReStr)`; `nameSetNormalize` is the method of the process-name
grouper, which the sources at hand do not hold. -/
def Grouper.SetNormalizeRegexp (compile : String → Except String Regexp)
    (nameSetNormalize : ProcStatusName → String → Except String ProcStatusName)
    (g : Grouper) (nReStr : String) : Except String Grouper :=
  match g with
  | .cgroup c =>
    match c.SetNormalizeRegexp compile nReStr with
    | .ok c1 => .ok (.cgroup c1)
    | .error err => .error err
  | .name p =>
    match nameSetNormalize p nReStr with
    | .ok p1 => .ok (.name p1)
    | .error err => .error err

/-- What `runRoot` does after the grouper is configured. -/
inductive RootEvent where
  /-- `collector.NewGroupedProcCollector(g)`. -/
  | newCollector
  /-- `collector.EnableMetric(k)`. -/
  | enableMetric (k : MetricKey)
  /-- `prometheus.MustRegister(collector)`. -/
  | register
  /-- `http.Handle(endpoint, promhttp.Handler())`. -/
  | handle (endpoint : String)
  /-- `http.ListenAndServe(address, nil)`, under which scrapes run discovery. -/
  | listenAndServe (address : String)
  deriving DecidableEq, Repr

/-- The result of `runRoot`: the status, the error, and what was done. -/
structure RootResult where
  status : Int
  err : Option String
  events : List RootEvent
  deriving DecidableEq, Repr

/-- `runRoot(args, address, endpoint, groupType, nReStr, collectStat, collectIO)`;
`listenAndServe` is the error `http.ListenAndServe` returns, if it returns one. -/
def runRoot (compile : String → Except String Regexp)
    (nameSetNormalize : ProcStatusName → String → Except String ProcStatusName)
    (listenAndServe : String → Option String)
    (_args : List String) (address endpoint groupType nReStr : String)
    (collectStat collectIo : Bool) : RootResult :=
  let g0 : Option Grouper :=
    if groupType = "cgroup" then some (.cgroup (NewCgroup "/sys/fs/cgroup"))
    else if groupType = "name" then some (.name NewProcStatusName)
    else none
  match g0 with
  | none => ⟨1, some "invalid grouping type", []⟩
  | some g =>
    match g.SetNormalizeRegexp compile nameSetNormalize nReStr with
    | .error err => ⟨1, some err, []⟩
    | .ok _ =>
      let evs := [RootEvent.newCollector]
        ++ (if collectStat then [RootEvent.enableMetric MetricKey.ProcStat] else [])
        ++ (if collectIo then [RootEvent.enableMetric MetricKey.ProcIO] else [])
        ++ [RootEvent.register, RootEvent.handle endpoint, RootEvent.listenAndServe address]
      match listenAndServe address with
      | some err => ⟨1, some err, evs⟩
      | none => ⟨0, none, evs⟩

/-- Whether a call returned without error. -/
def succeeds {α : Type} (r : Except String α) : Bool :=
  match r with
  | .ok _ => true
  | .error _ => false

/-- A pattern has exactly one capturing group: it compiles, to a regular expression with
one parenthesized subexpression. -/
def hasOneGroup (compile : String → Except String Regexp) (pattern : String) : Prop :=
  ∃ re, compile pattern = .ok re ∧ re.NumSubexp = 1

/-! ## The collector (`collector/collector.go`) -/

/-- The grouper as the collector sees it: `Name()` and `Collect(gprocs, enabled)`, the
latter giving the table it leaves and whether it returned an error. -/
structure GrouperOps (M : Type) where
  Name : String
  Collect : GroupedProcs M → (MetricKey → Bool) → GroupedProcs M × Bool

/-- The `GroupedProcCollector`, with accumulators `M` and descriptors `D`. -/
structure GroupedProcCollector (M D : Type) where
  GroupedProcs : GroupedProcs M
  Metrics : List (MetricKey × M)
  Enabled : MetricKey → Bool
  Grouper : GrouperOps M
  descs : List (String × D)

/-- `NewGroupedProcCollector(g)`; `available` is `grouped_proc.AvairableMetrics()` and
`defaults` is `grouped_proc.DefaultEnabledMetrics()`. -/
def NewGroupedProcCollector {M D : Type} (available : List (MetricKey × M))
    (defaults : MetricKey → Bool) (g : GrouperOps M) : GroupedProcCollector M D :=
  { GroupedProcs := [], Metrics := available, Enabled := defaults, Grouper := g, descs := [] }

/-- `GroupedProcCollector.EnableMetric(metric)`. -/
def GroupedProcCollector.EnableMetric {M D : Type} (c : GroupedProcCollector M D)
    (metric : MetricKey) : GroupedProcCollector M D :=
  { c with Enabled := fun k => if k = metric then true else c.Enabled k }

/-- `GroupedProcCollector.DisableMetric(metric)`. -/
def GroupedProcCollector.DisableMetric {M D : Type} (c : GroupedProcCollector M D)
    (metric : MetricKey) : GroupedProcCollector M D :=
  { c with Enabled := fun k => if k = metric then false else c.Enabled k }

/-- One call of `SetCollectedMetric`: the labels it is given and the kind it is for. -/
structure Attempt where
  grouper : String
  group : String
  key : MetricKey
  deriving DecidableEq, Repr

/-- What the emission pass does: the calls of `SetCollectedMetric` in order, and the
samples sent on the channel. -/
structure Emission (S : Type) where
  attempts : List Attempt
  sent : List S

/-- The inner loop `for key, metric := range proc.Metrics` of `Collect`;
`setCollected` is `metric.SetCollectedMetric(ch, descs, name, group)`, giving the samples
it sent and whether it returned an error. -/
def emitRecord {M D S : Type} (setCollected : M → List (String × D) → String → String → List S × Bool)
    (descs : List (String × D)) (name group : String) (enabled : MetricKey → Bool) :
    List (MetricKey × M) → Emission S
  | [] => ⟨[], []⟩
  | (key, metric) :: rest =>
    if enabled key then
      let r := setCollected metric descs name group
      let next := emitRecord setCollected descs name group enabled rest
      match r.2 with
      | true => ⟨⟨name, group, key⟩ :: next.attempts, r.1 ++ next.sent⟩
      | false => ⟨⟨name, group, key⟩ :: next.attempts, r.1 ++ next.sent⟩
    else emitRecord setCollected descs name group enabled rest

/-- The outer loop `for group, proc := range c.GroupedProcs` of `Collect`. -/
def emitTable {M D S : Type} (setCollected : M → List (String × D) → String → String → List S × Bool)
    (descs : List (String × D)) (name : String) : GroupedProcs M → Emission S
  | [] => ⟨[], []⟩
  | (group, proc) :: rest =>
    let r := emitRecord setCollected descs name group proc.Enabled proc.Metrics
    let next := emitTable setCollected descs name rest
    ⟨r.attempts ++ next.attempts, r.sent ++ next.sent⟩

/-- `GroupedProcCollector.Collect(ch)`: the grouper collects into the table, its error
dropped, then every record emits its enabled kinds. -/
def GroupedProcCollector.Collect {M D S : Type} (c : GroupedProcCollector M D)
    (setCollected : M → List (String × D) → String → String → List S × Bool) :
    GroupedProcCollector M D × Emission S :=
  let tbl := (c.Grouper.Collect c.GroupedProcs c.Enabled).1
  ({ c with GroupedProcs := tbl }, emitTable setCollected c.descs c.Grouper.Name tbl)

/-! ## Fixtures -/

/-- First occurrence of `pat` in a character list: what follows it. -/
def findAfter (pat : List Char) : List Char → Option (List Char)
  | [] => if pat.isEmpty then some [] else none
  | c :: t =>
    if pat.isPrefixOf (c :: t) then some ((c :: t).drop pat.length) else findAfter pat t

/-- The regular expression `/app/(.*)`, capturing everything after `/app/`. -/
def afterApp : Regexp where
  NumSubexp := 1
  MatchString := fun s => (findAfter "/app/".data s.data).isSome
  FindStringSubmatch := fun s =>
    match findAfter "/app/".data s.data with
    | some rest =>
      [String.mk ("/app/".data ++ rest.takeWhile (fun ch => ch ≠ '\n')),
       String.mk (rest.takeWhile (fun ch => ch ≠ '\n'))]
    | none => []

/-- The regular expression `web`, without a capturing group. -/
def webRe : Regexp where
  NumSubexp := 0
  MatchString := fun s => (findAfter "web".data s.data).isSome
  FindStringSubmatch := fun s =>
    match findAfter "web".data s.data with
    | some _ => ["web"]
    | none => []

/-- The empty regular expression: no capturing group, an empty match everywhere. -/
def emptyRe : Regexp where
  NumSubexp := 0
  MatchString := fun _ => true
  FindStringSubmatch := fun _ => [""]

/-- A compiler for the patterns of the fixtures. -/
def sampleCompile (pattern : String) : Except String Regexp :=
  if pattern = "" then .ok emptyRe
  else if pattern = "/app/(.*)" then .ok afterApp
  else if pattern = "web" then .ok webRe
  else .error "pattern outside the fixtures"

/-- A record constructor for the fixtures: weight 3, no accumulators. -/
def sampleNew : (MetricKey → Bool) → GroupedProc Unit :=
  fun enabled => { Enabled := enabled, Metrics := [], Exists := false, RequiredWeight := 3 }

/-- Both kinds enabled. -/
def allEnabled : MetricKey → Bool := fun _ => true

/-- A walked directory whose traversal weight is granted. -/
def dirEntry (path : String) (procs : Option ProcsFile) : Entry :=
  { path := path, walkErr := false, info := some true, acquireOk := true, procs := procs }

/-- A membership file that reads to the end, every acquisition granted. -/
def procsOf (lines : List String) : ProcsFile :=
  { lines := lines.map (fun t => ⟨t, true⟩), readErr := false }

/-- The walk of a subsystem directory that does not exist. -/
def missingRoot (dir : String) : List Entry :=
  [{ path := dir, walkErr := true, info := none, acquireOk := true, procs := none }]

/-- A hierarchy in which the subsystems `cpu` and `memory` both hold the control group
`/app`, with process 7 in it. -/
def twoSubsystems : String → List Entry := fun dir =>
  if dir = "/sys/fs/cgroup/cpu" ∨ dir = "/sys/fs/cgroup/memory" then
    [dirEntry dir (some (procsOf [])), dirEntry (dir ++ "/app") (some (procsOf ["7"]))]
  else missingRoot dir

/-- A hierarchy with one subsystem, `cpu`, that holds `/app/db` and `/app/web`, each with a
membership file; `appProcs` is the outcome of opening the membership file of `/app`. -/
def appHierarchy (appProcs : Option ProcsFile) : String → List Entry := fun dir =>
  if dir = "/sys/fs/cgroup/cpu" then
    [dirEntry dir none,
     dirEntry (dir ++ "/app") appProcs,
     dirEntry (dir ++ "/app/db") (some (procsOf ["11"])),
     dirEntry (dir ++ "/app/web") (some (procsOf ["21", "22"]))]
  else missingRoot dir

/-- A hierarchy with one subsystem, `cpu`, that holds the control group `/app` with the
given membership lines. -/
def oneGroup (lines : List String) : String → List Entry := fun dir =>
  if dir = "/sys/fs/cgroup/cpu" then
    [dirEntry dir none, dirEntry (dir ++ "/app") (some (procsOf lines))]
  else missingRoot dir

/-- The control-group grouper `runRoot` builds, with a normalize pattern. -/
def cgroupWith (nRe : Option Regexp) (eRe : Option Regexp) : Cgroup :=
  { fsPath := "/sys/fs/cgroup", nRe := nRe, eRe := eRe }

/-- A process root with the processes `nginx` and `mysqld`, and entries that are not
processes. -/
def fixtureProc : List ProcEntry :=
  [⟨"1", some "nginx"⟩, ⟨"2", some "mysqld"⟩, ⟨"cpuinfo", none⟩, ⟨"self", some "nginx"⟩]

/-- A record whose accumulators are tagged with their kind: the given accumulators, and
the given kinds enabled. -/
def sampleRecord (kinds : List MetricKey) (enabled : MetricKey → Bool) : GroupedProc MetricKey :=
  { Enabled := enabled, Metrics := kinds.map (fun k => (k, k)),
    Exists := true, RequiredWeight := 2 }

/-- A collector over a grouper named `cgroup` that leaves the given table as it is. -/
def collectorOver (tbl : GroupedProcs MetricKey) : GroupedProcCollector MetricKey Unit :=
  { GroupedProcs := tbl
    Metrics := [(MetricKey.ProcStat, MetricKey.ProcStat), (MetricKey.ProcIO, MetricKey.ProcIO)]
    Enabled := allEnabled
    Grouper := { Name := "cgroup", Collect := fun t _ => (t, false) }
    descs := [] }

/-- A collector with both accumulators in every record: group `web` with both kinds
enabled, group `db` with the I/O kind only. -/
def sampleCollector : GroupedProcCollector MetricKey Unit :=
  collectorOver
    [("web", sampleRecord [MetricKey.ProcStat, MetricKey.ProcIO] allEnabled),
     ("db", sampleRecord [MetricKey.ProcStat, MetricKey.ProcIO]
        (fun k => decide (k = MetricKey.ProcIO)))]

/-- A collector whose one record, of group `web`, has both kinds enabled and the I/O
accumulator only. -/
def partialCollector : GroupedProcCollector MetricKey Unit :=
  collectorOver [("web", sampleRecord [MetricKey.ProcIO] allEnabled)]

/-- An emission that fails for the scheduling accumulator, sending nothing, and for any
other accumulator sends one sample: the group and the kind. -/
def statFailingEmit :
    MetricKey → List (String × Unit) → String → String → List (String × MetricKey) × Bool :=
  fun m _ _ group =>
    if m = MetricKey.ProcStat then ([], true) else ([(group, m)], false)

/-! ## Folds and membership (C1) -/

theorem foldsOf_append (g : String) (a b : List Event) :
    foldsOf g (a ++ b) = foldsOf g a ++ foldsOf g b := by
  simp [foldsOf]

theorem readLoop_folds (file key : String) (w : Nat) (re : Bool) (g : String) :
    ∀ ls : List Line, (readLoop file key w re ls).2 = none →
      foldsOf g (readLoop file key w re ls).1
        = if key = g then ls.filterMap (fun l => Atoi l.text) else [] := by
  intro ls
  induction ls with
  | nil =>
    intro h
    cases re <;> simp_all [readLoop, foldsOf]
  | cons l rest ih =>
    intro h
    unfold readLoop at h ⊢
    cases hp : Atoi l.text with
    | none => simp [hp] at h
    | some pid =>
      cases ha : l.acquireOk with
      | false => simp [hp, ha] at h
      | true =>
        simp only [hp, ha, if_true] at h ⊢
        have ih2 := ih h
        by_cases hk : key = g
        · simp [foldsOf, hk, hp] at ih2 ⊢
          exact ih2
        · simp [foldsOf, hk] at ih2 ⊢
          exact ih2

theorem walkFn_folds {M : Type} (c : Cgroup) (mk : (MetricKey → Bool) → GroupedProc M)
    (en : MetricKey → Bool) (sd : String) (tbl : GroupedProcs M) (e : Entry) (g : String)
    (h : (walkFn c mk en sd tbl e).err = none) :
    foldsOf g (walkFn c mk en sd tbl e).trace = c.entryMembers sd g e := by
  unfold walkFn at h ⊢
  unfold Cgroup.entryMembers Cgroup.candidateKey
  by_cases hw : e.walkErr = true
  · simp [hw, foldsOf]
  · simp only [hw, if_false, Bool.false_eq_true] at h ⊢
    cases hi : e.info with
    | none => simp [foldsOf]
    | some isDir =>
      simp only [hi] at h ⊢
      cases ha : e.acquireOk with
      | false => simp [ha] at h
      | true =>
        simp only [ha, if_true] at h ⊢
        unfold inspect at h ⊢
        cases isDir with
        | false => simp [foldsOf]
        | true =>
          simp only [if_true] at h ⊢
          by_cases hx : c.excluded (relPath sd e.path) = true
          · simp [hx, foldsOf]
          · simp only [hx, if_false, Bool.false_eq_true] at h ⊢
            by_cases hn : c.normalize (relPath sd e.path) = ""
            · simp [hn, foldsOf]
            · simp only [hn, ne_eq, not_false_eq_true, if_true, if_false] at h ⊢
              cases hp : e.procs with
              | none => simp [foldsOf]
              | some pf =>
                simp only [hp] at h ⊢
                have := readLoop_folds _ _ _ _ g _ h
                simp only [foldsOf_append, this]
                by_cases hk : c.normalize (relPath sd e.path) = g
                · cases hl : GroupedProcs.Load tbl (c.normalize (relPath sd e.path)) <;>
                    simp [foldsOf, hk, ProcsFile.pids]
                · cases hl : GroupedProcs.Load tbl (c.normalize (relPath sd e.path)) <;>
                    simp [foldsOf, hk]

theorem Walk_folds {M : Type} (c : Cgroup) (mk : (MetricKey → Bool) → GroupedProc M)
    (en : MetricKey → Bool) (sd g : String) :
    ∀ (es : List Entry) (tbl : GroupedProcs M),
      (Walk (walkFn c mk en sd) tbl es).err = none →
      foldsOf g (Walk (walkFn c mk en sd) tbl es).trace = c.walkMembers sd g es := by
  intro es
  induction es with
  | nil => intro tbl _; simp [Walk, foldsOf, Cgroup.walkMembers]
  | cons e es ih =>
    intro tbl h
    unfold Walk at h ⊢
    cases he : (walkFn c mk en sd tbl e).err with
    | some err => simp [he] at h
    | none =>
      simp only [he] at h ⊢
      simp only [foldsOf_append, Cgroup.walkMembers, walkFn_folds c mk en sd tbl e g he, ih _ h]

theorem collectLoop_folds {M : Type} (c : Cgroup) (mk : (MetricKey → Bool) → GroupedProc M)
    (en : MetricKey → Bool) (fs : String → List Entry) (g : String) :
    ∀ (ss : List String) (tbl : GroupedProcs M),
      (collectLoop c mk en fs tbl ss).err = none →
      foldsOf g (collectLoop c mk en fs tbl ss).trace = c.membersIn fs g ss := by
  intro ss
  induction ss with
  | nil => intro tbl _; simp [collectLoop, foldsOf, Cgroup.membersIn]
  | cons s ss ih =>
    intro tbl h
    unfold collectLoop at h ⊢
    cases he : (Walk (walkFn c mk en (c.searchDir s)) tbl (fs (c.searchDir s))).err with
    | some err => simp [he] at h
    | none =>
      simp only [he] at h ⊢
      simp only [foldsOf_append, Cgroup.membersIn, Walk_folds c mk en _ g _ tbl he, ih _ h]

/-- C1 (as amended): after a cycle of `Cgroup.Collect` that returns no error, the folds
into the record of a group are exactly the member occurrences of that group, one fold per
line of every membership file of a directory with that group name, over all subsystems and
in walk order; so the accumulated total of a field, folding being addition, is the sum of
the readings over these occurrences.  When no process ID occurs twice among them, that is
one fold per member process ID and the sum over the member processes. -/
theorem collect_folds_member_occurrences {M : Type} (c : Cgroup)
    (NewGroupedProc : (MetricKey → Bool) → GroupedProc M) (fs : String → List Entry)
    (gprocs : GroupedProcs M) (enabled : MetricKey → Bool) (g : String)
    (h : (c.Collect NewGroupedProc fs gprocs enabled).err = none) :
    foldsOf g (c.Collect NewGroupedProc fs gprocs enabled).trace = c.memberOccurrences fs g ∧
    (∀ reading : Int → Nat,
      groupTotal reading g (c.Collect NewGroupedProc fs gprocs enabled).trace
        = ((c.memberOccurrences fs g).map reading).sum) ∧
    ((c.memberOccurrences fs g).Nodup →
      foldsOf g (c.Collect NewGroupedProc fs gprocs enabled).trace = c.memberPids fs g ∧
      ∀ reading : Int → Nat,
        groupTotal reading g (c.Collect NewGroupedProc fs gprocs enabled).trace
          = ((c.memberPids fs g).map reading).sum) := by
  have hf : foldsOf g (c.Collect NewGroupedProc fs gprocs enabled).trace
      = c.memberOccurrences fs g :=
    collectLoop_folds c NewGroupedProc enabled fs g Subsystems gprocs h
  have ht : ∀ reading : Int → Nat,
      groupTotal reading g (c.Collect NewGroupedProc fs gprocs enabled).trace
        = ((c.memberOccurrences fs g).map reading).sum := by
    intro reading
    unfold groupTotal
    rw [hf]
  refine ⟨hf, ht, fun hn => ?_⟩
  have hd : c.memberPids fs g = c.memberOccurrences fs g := List.Nodup.dedup hn
  exact ⟨hf.trans hd.symm, fun reading => by rw [ht reading, hd]⟩

/-- C1, at the hierarchy with `/app` under `cpu` and `memory`: the cycle returns no error and
the folds into `/app` are the two member occurrences of process 7. -/
theorem collect_folds_member_occurrences_witness :
    ((cgroupWith none none).Collect sampleNew twoSubsystems [] allEnabled).err = none ∧
    foldsOf "/app" ((cgroupWith none none).Collect sampleNew twoSubsystems [] allEnabled).trace
      = [7, 7] :=
  ⟨by decide,
   (collect_folds_member_occurrences (cgroupWith none none) sampleNew twoSubsystems []
      allEnabled "/app" (by decide)).1.trans (by decide)⟩

/-- C1 (as stated) fails: with the control group `/app` under both `cpu` and `memory` and
process 7 in it, the cycle returns no error, process 7 is the one member of the group, and
the record of `/app` receives two folds of process 7, so that a field with reading 1 for
every process totals 2 and not 1. -/
theorem collect_folds_twice_counterexample :
    ((cgroupWith none none).Collect sampleNew twoSubsystems [] allEnabled).err = none ∧
    (cgroupWith none none).memberPids twoSubsystems "/app" = [7] ∧
    (foldsOf "/app"
      ((cgroupWith none none).Collect sampleNew twoSubsystems [] allEnabled).trace).count 7 = 2 ∧
    groupTotal (fun _ => 1) "/app"
      ((cgroupWith none none).Collect sampleNew twoSubsystems [] allEnabled).trace = 2 ∧
    (((cgroupWith none none).memberPids twoSubsystems "/app").map (fun _ => 1)).sum = 1 := by
  decide

/-! ## The normalize pattern and the command (C2) -/

theorem sampleCompile_web : sampleCompile "web" = .ok webRe := by
  simp [sampleCompile]

theorem sampleCompile_empty : sampleCompile "" = .ok emptyRe := by
  simp [sampleCompile]

theorem setNormalizeRegexp_error_of_not_one (compile : String → Except String Regexp)
    (pattern : String) (hne : pattern ≠ "") (h : ¬ hasOneGroup compile pattern) :
    ∃ err, ∀ c : Cgroup, c.SetNormalizeRegexp compile pattern = .error err := by
  cases hc : compile pattern with
  | error err =>
    exact ⟨err, fun c => by simp [Cgroup.SetNormalizeRegexp, hne, hc]⟩
  | ok re =>
    have hn : re.NumSubexp ≠ 1 := fun h1 => h ⟨re, hc, h1⟩
    exact ⟨subexpError, fun c => by simp [Cgroup.SetNormalizeRegexp, hne, hc, hn]⟩

/-- C2 (as amended): the empty pattern is accepted and leaves the grouper as it is; a
pattern that is not empty is accepted only if it compiles with exactly one capturing group,
and is then installed; a pattern that is not empty and has no or several capturing groups
(or does not compile) is rejected with an error, and `runRoot` with the control-group
grouping type returns status 1 and that error with nothing done: no collector created, no
metric enabled, nothing registered or served. -/
theorem setNormalizeRegexp_one_group (compile : String → Except String Regexp)
    (nameSetNormalize : ProcStatusName → String → Except String ProcStatusName)
    (listenAndServe : String → Option String) (args : List String)
    (address endpoint pattern : String) (collectStat collectIo : Bool) :
    (pattern = "" → ∀ c : Cgroup, c.SetNormalizeRegexp compile pattern = .ok c) ∧
    (pattern ≠ "" →
      (∀ c : Cgroup, succeeds (c.SetNormalizeRegexp compile pattern) = true
          ↔ hasOneGroup compile pattern) ∧
      (∀ (c : Cgroup) (re : Regexp), compile pattern = .ok re → re.NumSubexp = 1 →
          c.SetNormalizeRegexp compile pattern = .ok { c with nRe := some re }) ∧
      (¬ hasOneGroup compile pattern →
        ∃ err, (∀ c : Cgroup, c.SetNormalizeRegexp compile pattern = .error err) ∧
          runRoot compile nameSetNormalize listenAndServe args address endpoint "cgroup"
            pattern collectStat collectIo = ⟨1, some err, []⟩)) := by
  refine ⟨fun h c => by simp [Cgroup.SetNormalizeRegexp, h], fun hne => ⟨?_, ?_, ?_⟩⟩
  · intro c
    constructor
    · intro hs
      cases hc : compile pattern with
      | error err => simp [Cgroup.SetNormalizeRegexp, hne, hc, succeeds] at hs
      | ok re =>
        by_cases hn : re.NumSubexp = 1
        · exact ⟨re, hc, hn⟩
        · simp [Cgroup.SetNormalizeRegexp, hne, hc, hn, succeeds] at hs
    · rintro ⟨re, hc, hn⟩
      simp [Cgroup.SetNormalizeRegexp, hne, hc, hn, succeeds]
  · intro c re hc hn
    simp [Cgroup.SetNormalizeRegexp, hne, hc, hn]
  · intro h
    obtain ⟨err, herr⟩ := setNormalizeRegexp_error_of_not_one compile pattern hne h
    refine ⟨err, herr, ?_⟩
    simp [runRoot, Grouper.SetNormalizeRegexp, herr]

/-- C2, at the pattern `web`, which has no capturing group: it is rejected and `runRoot`
returns status 1 with the error, nothing done. -/
theorem setNormalizeRegexp_one_group_witness :
    ¬ hasOneGroup sampleCompile "web" ∧
    ∃ err, (∀ c : Cgroup, c.SetNormalizeRegexp sampleCompile "web" = .error err) ∧
      runRoot sampleCompile (fun p _ => .ok p) (fun _ => some "closed") [] ":9644" "/metrics"
        "cgroup" "web" true true = ⟨1, some err, []⟩ :=
  have h : ¬ hasOneGroup sampleCompile "web" := by
    rintro ⟨re, hc, hn⟩
    rw [sampleCompile_web] at hc
    cases hc
    simp [webRe] at hn
  ⟨h, ((setNormalizeRegexp_one_group sampleCompile (fun p _ => .ok p) (fun _ => some "closed")
      [] ":9644" "/metrics" "web" true true).2 (by decide)).2.2 h⟩

/-- C2 (as stated) fails: the empty pattern, which has no capturing group, is accepted, and
`runRoot` goes on to create the collector and to serve. -/
theorem setNormalizeRegexp_empty_counterexample :
    succeeds ((NewCgroup "/sys/fs/cgroup").SetNormalizeRegexp sampleCompile "") = true ∧
    ¬ hasOneGroup sampleCompile "" ∧
    runRoot sampleCompile (fun p _ => .ok p) (fun _ => some "closed") [] ":9644" "/metrics"
      "cgroup" "" false false
      = ⟨1, some "closed",
          [RootEvent.newCollector, RootEvent.register, RootEvent.handle "/metrics",
           RootEvent.listenAndServe ":9644"]⟩ := by
  refine ⟨by simp [Cgroup.SetNormalizeRegexp, succeeds], ?_, by decide⟩
  rintro ⟨re, hc, hn⟩
  rw [sampleCompile_empty] at hc
  cases hc
  simp [emptyRe] at hn

/-! ## Excluded directories (C3) -/

/-- C3: a walked directory whose relative path matches the exclude pattern leaves the table
as it was, and the callback does nothing but take and release the traversal weight: no
membership file is opened, no record is looked up, created, stored or marked, and no read
is spawned; whatever the normalize pattern is, and so also when it matches the path. -/
theorem excluded_directory_untouched {M : Type} (c : Cgroup)
    (NewGroupedProc : (MetricKey → Bool) → GroupedProc M) (enabled : MetricKey → Bool)
    (searchDir : String) (tbl : GroupedProcs M) (e : Entry) (eRe : Regexp)
    (hre : c.eRe = some eRe) (hdir : e.info = some true)
    (hmatch : eRe.MatchString (relPath searchDir e.path) = true) :
    (walkFn c NewGroupedProc enabled searchDir tbl e).table = tbl ∧
    ∀ ev ∈ (walkFn c NewGroupedProc enabled searchDir tbl e).trace,
      ev = Event.acquire 2 ∨ ev = Event.release 2 := by
  have hx : c.excluded (relPath searchDir e.path) = true := by
    simp [Cgroup.excluded, hre, hmatch]
  unfold walkFn
  by_cases hw : e.walkErr = true
  · simp [hw]
  · cases ha : e.acquireOk <;> simp [hw, hdir, ha, inspect, hx]

/-- C3, at the directory `/app/web` with the exclude pattern `web` and the normalize pattern
`/app/(.*)`, which matches it too: the table stays empty and only the traversal weight is
taken and released. -/
theorem excluded_directory_untouched_witness :
    afterApp.MatchString (relPath "/sys/fs/cgroup/cpu" "/sys/fs/cgroup/cpu/app/web") = true ∧
    (walkFn (cgroupWith (some afterApp) (some webRe)) sampleNew allEnabled "/sys/fs/cgroup/cpu"
        [] (dirEntry "/sys/fs/cgroup/cpu/app/web" (some (procsOf ["21", "22"])))).table = [] ∧
    ∀ ev ∈ (walkFn (cgroupWith (some afterApp) (some webRe)) sampleNew allEnabled
        "/sys/fs/cgroup/cpu" []
        (dirEntry "/sys/fs/cgroup/cpu/app/web" (some (procsOf ["21", "22"])))).trace,
      ev = Event.acquire 2 ∨ ev = Event.release 2 :=
  ⟨by decide,
   excluded_directory_untouched (cgroupWith (some afterApp) (some webRe)) sampleNew allEnabled
     "/sys/fs/cgroup/cpu" [] (dirEntry "/sys/fs/cgroup/cpu/app/web" (some (procsOf ["21", "22"])))
     webRe rfl rfl (by decide)⟩

/-! ## Group names and the normalize pattern (C4) -/

theorem mem_keys_Store {M : Type} (x key : String) (v : GroupedProc M) :
    ∀ t : GroupedProcs M, x ∈ (t.Store key v).keys ↔ x ∈ t.keys ∨ x = key := by
  intro t
  induction t with
  | nil => simp [GroupedProcs.Store, GroupedProcs.keys]
  | cons kv rest ih =>
    obtain ⟨k, w⟩ := kv
    unfold GroupedProcs.Store
    by_cases hk : k = key
    · subst hk
      simp only [if_true, GroupedProcs.keys, List.map_cons, List.mem_cons]
      tauto
    · simp only [hk, if_false, GroupedProcs.keys, List.map_cons, List.mem_cons]
      have ih2 : x ∈ List.map Prod.fst (GroupedProcs.Store rest key v)
          ↔ x ∈ List.map Prod.fst rest ∨ x = key := ih
      rw [ih2]
      tauto

theorem walkFn_keys {M : Type} (c : Cgroup) (mk : (MetricKey → Bool) → GroupedProc M)
    (en : MetricKey → Bool) (sd : String) (tbl : GroupedProcs M) (e : Entry) (k : String)
    (h : k ∈ (walkFn c mk en sd tbl e).table.keys) :
    k ∈ tbl.keys ∨ c.candidateKey sd e = some k := by
  unfold walkFn at h
  unfold Cgroup.candidateKey
  by_cases hw : e.walkErr = true
  · left; simpa [hw] using h
  · simp only [hw, if_false, Bool.false_eq_true] at h ⊢
    cases hi : e.info with
    | none => left; simpa [hi] using h
    | some isDir =>
      simp only [hi] at h ⊢
      cases ha : e.acquireOk with
      | false => left; simpa [ha] using h
      | true =>
        simp only [ha, if_true] at h
        unfold inspect at h
        cases isDir with
        | false => left; simpa using h
        | true =>
          simp only [if_true] at h ⊢
          by_cases hx : c.excluded (relPath sd e.path) = true
          · left; simpa [hx] using h
          · simp only [hx, if_false, Bool.false_eq_true] at h ⊢
            by_cases hn : c.normalize (relPath sd e.path) = ""
            · left; simpa [hn] using h
            · simp only [hn, ne_eq, not_false_eq_true, if_true, if_false] at h ⊢
              cases hp : e.procs with
              | none => left; simpa [hp] using h
              | some pf =>
                simp only [hp] at h
                cases hl : GroupedProcs.Load tbl (c.normalize (relPath sd e.path)) with
                | none =>
                  simp only [hl, mem_keys_Store] at h
                  rcases h with (h | h) | h
                  · exact Or.inl h
                  · exact Or.inr (by rw [h])
                  · exact Or.inr (by rw [h])
                | some g =>
                  simp only [hl, mem_keys_Store] at h
                  rcases h with h | h
                  · exact Or.inl h
                  · exact Or.inr (by rw [h])

theorem Walk_keys {M : Type} (c : Cgroup) (mk : (MetricKey → Bool) → GroupedProc M)
    (en : MetricKey → Bool) (sd k : String) :
    ∀ (es : List Entry) (tbl : GroupedProcs M),
      k ∈ (Walk (walkFn c mk en sd) tbl es).table.keys →
      k ∈ tbl.keys ∨ ∃ e ∈ es, c.candidateKey sd e = some k := by
  intro es
  induction es with
  | nil => intro tbl h; left; simpa [Walk] using h
  | cons e es ih =>
    intro tbl h
    unfold Walk at h
    cases he : (walkFn c mk en sd tbl e).err with
    | some err =>
      simp only [he] at h
      rcases walkFn_keys c mk en sd tbl e k h with h1 | h1
      · exact Or.inl h1
      · exact Or.inr ⟨e, List.mem_cons_self _ _, h1⟩
    | none =>
      simp only [he] at h
      rcases ih _ h with h1 | ⟨e2, he2, h2⟩
      · rcases walkFn_keys c mk en sd tbl e k h1 with h3 | h3
        · exact Or.inl h3
        · exact Or.inr ⟨e, List.mem_cons_self _ _, h3⟩
      · exact Or.inr ⟨e2, List.mem_cons_of_mem _ he2, h2⟩

theorem collectLoop_keys {M : Type} (c : Cgroup) (mk : (MetricKey → Bool) → GroupedProc M)
    (en : MetricKey → Bool) (fs : String → List Entry) (k : String) :
    ∀ (ss : List String) (tbl : GroupedProcs M),
      k ∈ (collectLoop c mk en fs tbl ss).table.keys →
      k ∈ tbl.keys ∨ ∃ s ∈ ss, ∃ e ∈ fs (c.searchDir s), c.candidateKey (c.searchDir s) e = some k := by
  intro ss
  induction ss with
  | nil => intro tbl h; left; simpa [collectLoop] using h
  | cons s ss ih =>
    intro tbl h
    unfold collectLoop at h
    cases he : (Walk (walkFn c mk en (c.searchDir s)) tbl (fs (c.searchDir s))).err with
    | some err =>
      simp only [he] at h
      rcases Walk_keys c mk en _ k _ tbl h with h1 | ⟨e, hm, h1⟩
      · exact Or.inl h1
      · exact Or.inr ⟨s, List.mem_cons_self _ _, e, hm, h1⟩
    | none =>
      simp only [he] at h
      rcases ih _ h with h1 | ⟨s2, hs2, e, hm, h2⟩
      · rcases Walk_keys c mk en _ k _ tbl h1 with h3 | ⟨e, hm, h3⟩
        · exact Or.inl h3
        · exact Or.inr ⟨s, List.mem_cons_self _ _, e, hm, h3⟩
      · exact Or.inr ⟨s2, List.mem_cons_of_mem _ hs2, e, hm, h2⟩

theorem candidateKey_eq_some (c : Cgroup) (sd : String) (e : Entry) (k : String)
    (h : c.candidateKey sd e = some k) :
    e.walkErr = false ∧ e.info = some true ∧ c.excluded (relPath sd e.path) = false ∧
      k = c.normalize (relPath sd e.path) ∧ k ≠ "" := by
  unfold Cgroup.candidateKey at h
  by_cases hw : e.walkErr = true
  · simp [hw] at h
  · simp only [hw, if_false, Bool.false_eq_true] at h
    cases hi : e.info with
    | none => simp [hi] at h
    | some isDir =>
      cases isDir with
      | false => simp [hi] at h
      | true =>
        simp only [hi] at h
        by_cases hx : c.excluded (relPath sd e.path) = true
        · simp [hx] at h
        · by_cases hn : c.normalize (relPath sd e.path) = ""
          · simp [hx, hn] at h
          · simp only [hx, hn, if_false, Bool.false_eq_true, Option.some.injEq] at h
            refine ⟨by simpa using hw, rfl, by simpa using hx, h.symm, ?_⟩
            rw [← h]; exact hn

theorem normalize_cases (c : Cgroup) (nRe : Regexp) (h : c.nRe = some nRe) (p : String) :
    (∃ m0 rest, nRe.FindStringSubmatch p = m0 :: c.normalize p :: rest) ∨
    ((nRe.FindStringSubmatch p).length ≤ 1 ∧ c.normalize p = p) := by
  unfold Cgroup.normalize
  simp only [h]
  cases hm : nRe.FindStringSubmatch p with
  | nil => right; simp
  | cons m0 t =>
    cases t with
    | nil => right; simp
    | cons m1 rest => left; exact ⟨m0, rest, rfl⟩

/-- C4 (as amended): with a normalize pattern set, every group name in the table after a
cycle of `Cgroup.Collect` was in the table before, or belongs to a walked directory that is
not excluded and is then the first capture of the relative path of that directory when the
pattern matches it (`FindStringSubmatch` gives more than one element), and the relative
path itself, unchanged, when the pattern does not match it; it is never empty.  For one
subsystem with the directories `/app/db` and `/app/web` and the pattern `/app/(.*)` the
table gets the names `db` and `web`, and only these when `/app` has no membership file. -/
theorem collect_keys_normalized :
    (∀ {M : Type} (c : Cgroup) (NewGroupedProc : (MetricKey → Bool) → GroupedProc M)
      (fs : String → List Entry) (gprocs : GroupedProcs M) (enabled : MetricKey → Bool)
      (nRe : Regexp) (k : String), c.nRe = some nRe →
      k ∈ (c.Collect NewGroupedProc fs gprocs enabled).table.keys →
      k ∈ gprocs.keys ∨
      ∃ s ∈ Subsystems, ∃ e ∈ fs (c.searchDir s),
        e.info = some true ∧ c.excluded (relPath (c.searchDir s) e.path) = false ∧ k ≠ "" ∧
        ((∃ m0 rest, nRe.FindStringSubmatch (relPath (c.searchDir s) e.path) = m0 :: k :: rest) ∨
         ((nRe.FindStringSubmatch (relPath (c.searchDir s) e.path)).length ≤ 1 ∧
           k = relPath (c.searchDir s) e.path))) ∧
    ((cgroupWith (some afterApp) none).Collect sampleNew (appHierarchy none) []
        allEnabled).table.keys = ["db", "web"] := by
  refine ⟨?_, by decide⟩
  intro M c mk fs gprocs enabled nRe k hre hk
  rcases collectLoop_keys c mk enabled fs k Subsystems gprocs hk with h | ⟨s, hs, e, he, h⟩
  · exact Or.inl h
  · right
    obtain ⟨_, hdir, hx, hkn, hne⟩ := candidateKey_eq_some c _ e k h
    refine ⟨s, hs, e, he, hdir, hx, hne, ?_⟩
    rcases normalize_cases c nRe hre (relPath (c.searchDir s) e.path) with ⟨m0, rest, hm⟩ | ⟨hl, hn⟩
    · left; exact ⟨m0, rest, by rw [hkn]; exact hm⟩
    · right; exact ⟨hl, by rw [hkn]; exact hn⟩

/-- C4, at the hierarchy with `/app/db` and `/app/web` and the pattern `/app/(.*)`: the group
name `web` is the first capture of the relative path of a walked directory. -/
theorem collect_keys_normalized_witness :
    "web" ∈ ((cgroupWith (some afterApp) none).Collect sampleNew (appHierarchy none) []
        allEnabled).table.keys ∧
    ("web" ∈ GroupedProcs.keys ([] : GroupedProcs Unit) ∨
      ∃ s ∈ Subsystems, ∃ e ∈ appHierarchy none ((cgroupWith (some afterApp) none).searchDir s),
        e.info = some true ∧
        (cgroupWith (some afterApp) none).excluded
          (relPath ((cgroupWith (some afterApp) none).searchDir s) e.path) = false ∧
        "web" ≠ "" ∧
        ((∃ m0 rest, afterApp.FindStringSubmatch
            (relPath ((cgroupWith (some afterApp) none).searchDir s) e.path)
              = m0 :: "web" :: rest) ∨
         ((afterApp.FindStringSubmatch
            (relPath ((cgroupWith (some afterApp) none).searchDir s) e.path)).length ≤ 1 ∧
           "web" = relPath ((cgroupWith (some afterApp) none).searchDir s) e.path))) :=
  ⟨by decide,
   collect_keys_normalized.1 (cgroupWith (some afterApp) none) sampleNew (appHierarchy none) []
     allEnabled afterApp "web" rfl (by decide)⟩

/-- C4 (as stated) fails: with the pattern `/app/(.*)` and a membership file in `/app`, the
table gets the name `/app`, which is the relative path of that directory and no capture:
the pattern does not match `/app`, and no walked directory has `/app` as its first capture. -/
theorem collect_key_unmatched_counterexample :
    afterApp.NumSubexp = 1 ∧
    "/app" ∈ ((cgroupWith (some afterApp) none).Collect sampleNew
        (appHierarchy (some (procsOf ["5"]))) [] allEnabled).table.keys ∧
    afterApp.FindStringSubmatch "/app" = [] ∧
    ∀ e ∈ appHierarchy (some (procsOf ["5"])) "/sys/fs/cgroup/cpu",
      (afterApp.FindStringSubmatch (relPath "/sys/fs/cgroup/cpu" e.path)).get? 1 ≠ some "/app" := by
  decide

/-! ## Unparsable membership lines (C5) -/

theorem spawnedPids_append (a b : List Event) :
    spawnedPids (a ++ b) = spawnedPids a ++ spawnedPids b := by
  simp [spawnedPids]

theorem readLoop_err_of_bad (file key : String) (w : Nat) (re : Bool) (l : Line)
    (hbad : Atoi l.text = none) :
    ∀ ls : List Line, l ∈ ls → (readLoop file key w re ls).2 ≠ none := by
  intro ls
  induction ls with
  | nil => intro h; simp at h
  | cons x rest ih =>
    intro h
    unfold readLoop
    cases hp : Atoi x.text with
    | none => simp
    | some pid =>
      cases ha : x.acquireOk with
      | false => simp
      | true =>
        simp only [if_true]
        rcases List.mem_cons.1 h with h1 | h1
        · subst h1; rw [hbad] at hp; cases hp
        · exact ih h1

theorem readLoop_spawned (file key : String) (w : Nat) (re : Bool) :
    ∀ ls : List Line, spawnedPids (readLoop file key w re ls).1
      <+: (linesBeforeBad ls).filterMap (fun l => Atoi l.text) := by
  intro ls
  induction ls with
  | nil => cases re <;> simp [readLoop, spawnedPids, linesBeforeBad]
  | cons x rest ih =>
    unfold readLoop
    cases hp : Atoi x.text with
    | none => simp [spawnedPids, linesBeforeBad, hp]
    | some pid =>
      cases ha : x.acquireOk with
      | false => simp [spawnedPids]
      | true =>
        have h1 : linesBeforeBad (x :: rest) = x :: linesBeforeBad rest := by
          simp [linesBeforeBad, List.takeWhile, hp]
        simp only [if_true, h1, List.filterMap_cons, hp]
        have h2 : spawnedPids (Event.acquire w :: Event.spawn key pid w ::
            (readLoop file key w re rest).1) = pid :: spawnedPids (readLoop file key w re rest).1 := by
          simp [spawnedPids]
        rw [h2]
        exact (List.prefix_cons_inj pid).2 ih

theorem walkFn_err_of_bad {M : Type} (c : Cgroup) (mk : (MetricKey → Bool) → GroupedProc M)
    (en : MetricKey → Bool) (sd : String) (tbl : GroupedProcs M) (e : Entry) (k : String)
    (pf : ProcsFile) (l : Line) (hk : c.candidateKey sd e = some k) (hpf : e.procs = some pf)
    (hl : l ∈ pf.lines) (hbad : Atoi l.text = none) :
    (walkFn c mk en sd tbl e).err ≠ none := by
  obtain ⟨hw, hdir, hx, hkn, hne⟩ := candidateKey_eq_some c sd e k hk
  have hne2 : ¬ c.normalize (relPath sd e.path) = "" := by rw [← hkn]; exact hne
  unfold walkFn
  cases ha : e.acquireOk with
  | false => simp [hw, hdir]
  | true =>
    simp only [hw, hdir, inspect, hx, hne2, hpf, if_true, if_false, ne_eq, not_false_eq_true,
      Bool.false_eq_true]
    exact readLoop_err_of_bad _ _ _ _ l hbad _ hl

theorem walkFn_spawned {M : Type} (c : Cgroup) (mk : (MetricKey → Bool) → GroupedProc M)
    (en : MetricKey → Bool) (sd : String) (tbl : GroupedProcs M) (e : Entry) (k : String)
    (pf : ProcsFile) (hk : c.candidateKey sd e = some k) (hpf : e.procs = some pf) :
    spawnedPids (walkFn c mk en sd tbl e).trace
      <+: (linesBeforeBad pf.lines).filterMap (fun l => Atoi l.text) := by
  obtain ⟨hw, hdir, hx, hkn, hne⟩ := candidateKey_eq_some c sd e k hk
  have hne2 : ¬ c.normalize (relPath sd e.path) = "" := by rw [← hkn]; exact hne
  unfold walkFn
  cases ha : e.acquireOk with
  | false => simp [hw, hdir, spawnedPids]
  | true =>
    simp only [hw, hdir, inspect, hx, hne2, hpf, if_true, if_false, ne_eq, not_false_eq_true,
      Bool.false_eq_true, spawnedPids_append]
    have h0 := readLoop_spawned
      (filepathClean (filepathJoin e.path "cgroup.procs")) (c.normalize (relPath sd e.path))
      (match GroupedProcs.Load tbl (c.normalize (relPath sd e.path)) with
        | some g => g
        | none => mk en).RequiredWeight pf.readErr pf.lines
    cases hl : GroupedProcs.Load tbl (c.normalize (relPath sd e.path)) <;>
      simp only [hl] at h0 ⊢ <;> simpa [spawnedPids] using h0

theorem Walk_err_of_mem {M : Type} (fn : GroupedProcs M → Entry → Outcome M) (e : Entry)
    (hfn : ∀ tbl, (fn tbl e).err ≠ none) :
    ∀ (es : List Entry) (tbl : GroupedProcs M), e ∈ es → (Walk fn tbl es).err ≠ none := by
  intro es
  induction es with
  | nil => intro tbl h; simp at h
  | cons x rest ih =>
    intro tbl h
    unfold Walk
    cases hx : (fn tbl x).err with
    | some err => simp [hx]
    | none =>
      simp only [hx]
      rcases List.mem_cons.1 h with h1 | h1
      · subst h1; exact absurd hx (hfn tbl)
      · exact ih _ h1

theorem collectLoop_err_of_mem {M : Type} (c : Cgroup) (mk : (MetricKey → Bool) → GroupedProc M)
    (en : MetricKey → Bool) (fs : String → List Entry) (s : String) (e : Entry)
    (he : e ∈ fs (c.searchDir s))
    (hfn : ∀ tbl, (walkFn c mk en (c.searchDir s) tbl e).err ≠ none) :
    ∀ (ss : List String) (tbl : GroupedProcs M), s ∈ ss →
      (collectLoop c mk en fs tbl ss).err ≠ none := by
  intro ss
  induction ss with
  | nil => intro tbl h; simp at h
  | cons x rest ih =>
    intro tbl h
    unfold collectLoop
    cases hx : (Walk (walkFn c mk en (c.searchDir x)) tbl (fs (c.searchDir x))).err with
    | some err => simp [hx]
    | none =>
      simp only [hx]
      rcases List.mem_cons.1 h with h1 | h1
      · subst h1
        exact absurd hx (Walk_err_of_mem _ e hfn _ tbl he)
      · exact ih _ h1

/-- C5 (as amended): when the membership file of a group candidate holds a line that does
not parse as a process ID, `Cgroup.Collect` returns an error: the cycle is aborted, the
error is not absorbed.  The callback for that directory returns an error whatever the
table, and the reads it spawns are for lines before the first unparsable line only, none
for a line after it. -/
theorem unparsable_line_aborts_cycle {M : Type} (c : Cgroup)
    (NewGroupedProc : (MetricKey → Bool) → GroupedProc M) (fs : String → List Entry)
    (gprocs : GroupedProcs M) (enabled : MetricKey → Bool) (s : String) (e : Entry)
    (k : String) (pf : ProcsFile) (l : Line)
    (hs : s ∈ Subsystems) (he : e ∈ fs (c.searchDir s))
    (hk : c.candidateKey (c.searchDir s) e = some k) (hpf : e.procs = some pf)
    (hl : l ∈ pf.lines) (hbad : Atoi l.text = none) :
    (c.Collect NewGroupedProc fs gprocs enabled).err ≠ none ∧
    ∀ tbl : GroupedProcs M,
      (walkFn c NewGroupedProc enabled (c.searchDir s) tbl e).err ≠ none ∧
      spawnedPids (walkFn c NewGroupedProc enabled (c.searchDir s) tbl e).trace
        <+: (linesBeforeBad pf.lines).filterMap (fun l => Atoi l.text) := by
  have h1 : ∀ tbl : GroupedProcs M,
      (walkFn c NewGroupedProc enabled (c.searchDir s) tbl e).err ≠ none :=
    fun tbl => walkFn_err_of_bad c NewGroupedProc enabled _ tbl e k pf l hk hpf hl hbad
  exact ⟨collectLoop_err_of_mem c NewGroupedProc enabled fs s e he h1 Subsystems gprocs hs,
    fun tbl => ⟨h1 tbl, walkFn_spawned c NewGroupedProc enabled _ tbl e k pf hk hpf⟩⟩

/-- C5, at the membership file with the lines `1`, `x`, `3`: the cycle returns an error. -/
theorem unparsable_line_aborts_cycle_witness :
    Atoi "x" = none ∧
    ((cgroupWith none none).Collect sampleNew (oneGroup ["1", "x", "3"]) []
        allEnabled).err ≠ none :=
  ⟨by decide,
   (unparsable_line_aborts_cycle (cgroupWith none none) sampleNew (oneGroup ["1", "x", "3"]) []
      allEnabled "cpu" (dirEntry "/sys/fs/cgroup/cpu/app" (some (procsOf ["1", "x", "3"])))
      "/app" (procsOf ["1", "x", "3"]) ⟨"x", true⟩
      (by decide) (by decide) (by decide) rfl (by decide) (by decide)).1⟩

/-- C5 (as stated) fails: for the membership file with the lines `1`, `x`, `3` the cycle
returns the parse error of `x`, and spawns the read of process 1 only, none for the valid
line `3` after the bad one. -/
theorem unparsable_line_counterexample :
    ((cgroupWith none none).Collect sampleNew (oneGroup ["1", "x", "3"]) [] allEnabled).err
      = some (CollectError.atoi "x") ∧
    Atoi "3" = some 3 ∧
    spawnedPids ((cgroupWith none none).Collect sampleNew (oneGroup ["1", "x", "3"]) []
      allEnabled).trace = [1] := by
  decide

/-! ## The join and the membership file (C6, C10) -/

theorem wait_not_mem_readLoop (file key : String) (w : Nat) (re : Bool) :
    ∀ ls : List Line, Event.wait ∉ (readLoop file key w re ls).1 := by
  intro ls
  induction ls with
  | nil => cases re <;> simp [readLoop]
  | cons x rest ih =>
    unfold readLoop
    cases hp : Atoi x.text with
    | none => simp
    | some pid =>
      cases ha : x.acquireOk with
      | false => simp
      | true => simpa using ih

theorem wait_not_mem_walkFn {M : Type} (c : Cgroup) (mk : (MetricKey → Bool) → GroupedProc M)
    (en : MetricKey → Bool) (sd : String) (tbl : GroupedProcs M) (e : Entry) :
    Event.wait ∉ (walkFn c mk en sd tbl e).trace := by
  unfold walkFn
  by_cases hw : e.walkErr = true
  · simp [hw]
  · simp only [hw, if_false, Bool.false_eq_true]
    cases hi : e.info with
    | none => simp
    | some isDir =>
      cases ha : e.acquireOk with
      | false => simp
      | true =>
        simp only [if_true, inspect]
        cases isDir with
        | false => simp
        | true =>
          simp only [if_true]
          by_cases hx : c.excluded (relPath sd e.path) = true
          · simp [hx]
          · simp only [hx, if_false, Bool.false_eq_true]
            by_cases hn : c.normalize (relPath sd e.path) = ""
            · simp [hn]
            · simp only [hn, ne_eq, not_false_eq_true, if_true, if_false]
              cases hp : e.procs with
              | none => simp
              | some pf =>
                cases hl : GroupedProcs.Load tbl (c.normalize (relPath sd e.path)) <;>
                  simp [wait_not_mem_readLoop]

theorem wait_not_mem_Walk {M : Type} (c : Cgroup) (mk : (MetricKey → Bool) → GroupedProc M)
    (en : MetricKey → Bool) (sd : String) :
    ∀ (es : List Entry) (tbl : GroupedProcs M),
      Event.wait ∉ (Walk (walkFn c mk en sd) tbl es).trace := by
  intro es
  induction es with
  | nil => intro tbl; simp [Walk]
  | cons e es ih =>
    intro tbl
    unfold Walk
    cases he : (walkFn c mk en sd tbl e).err with
    | some err => simpa [he] using wait_not_mem_walkFn c mk en sd tbl e
    | none =>
      simp only [he, List.mem_append, not_or]
      exact ⟨wait_not_mem_walkFn c mk en sd tbl e, ih _⟩

theorem wait_mem_collectLoop {M : Type} (c : Cgroup) (mk : (MetricKey → Bool) → GroupedProc M)
    (en : MetricKey → Bool) (fs : String → List Entry) :
    ∀ (ss : List String) (tbl : GroupedProcs M),
      Event.wait ∈ (collectLoop c mk en fs tbl ss).trace
        ↔ (collectLoop c mk en fs tbl ss).err = none := by
  intro ss
  induction ss with
  | nil => intro tbl; simp [collectLoop]
  | cons s ss ih =>
    intro tbl
    unfold collectLoop
    cases he : (Walk (walkFn c mk en (c.searchDir s)) tbl (fs (c.searchDir s))).err with
    | some err => simpa [he] using wait_not_mem_Walk c mk en _ _ tbl
    | none =>
      simp only [he, List.mem_append]
      rw [← ih]
      constructor
      · rintro (h | h)
        · exact absurd h (wait_not_mem_Walk c mk en _ _ tbl)
        · exact h
      · exact Or.inr

/-- C6: `Cgroup.Collect` calls `wg.Wait()` exactly on the path that returns no error; on a
path that returns an error it returns without waiting.  For the membership file with the
lines `1` and `x` the read of process 1 is spawned, the parse error of `x` is returned, and
no `wg.Wait()` precedes the return. -/
theorem collect_waits_only_without_error :
    (∀ {M : Type} (c : Cgroup) (NewGroupedProc : (MetricKey → Bool) → GroupedProc M)
      (fs : String → List Entry) (gprocs : GroupedProcs M) (enabled : MetricKey → Bool),
      Event.wait ∈ (c.Collect NewGroupedProc fs gprocs enabled).trace
        ↔ (c.Collect NewGroupedProc fs gprocs enabled).err = none) ∧
    ((cgroupWith none none).Collect sampleNew (oneGroup ["1", "x"]) [] allEnabled).err
      = some (CollectError.atoi "x") ∧
    Event.spawn "/app" 1 3
      ∈ ((cgroupWith none none).Collect sampleNew (oneGroup ["1", "x"]) [] allEnabled).trace ∧
    Event.wait
      ∉ ((cgroupWith none none).Collect sampleNew (oneGroup ["1", "x"]) [] allEnabled).trace := by
  refine ⟨?_, by decide, by decide, by decide⟩
  intro M c mk fs gprocs enabled
  exact wait_mem_collectLoop c mk enabled fs Subsystems gprocs

theorem closed_mem_readLoop (file key : String) (w : Nat) (re : Bool) :
    ∀ ls : List Line, Event.closed file ∈ (readLoop file key w re ls).1
      ↔ (readLoop file key w re ls).2 ≠ none := by
  intro ls
  induction ls with
  | nil => cases re <;> simp [readLoop]
  | cons x rest ih =>
    unfold readLoop
    cases hp : Atoi x.text with
    | none => simp
    | some pid =>
      cases ha : x.acquireOk with
      | false => simp
      | true => simpa using ih

/-- C10: the read loop closes the membership file exactly when it ends in an error (read
error, unparsable line, failed acquisition); when it reaches the end of the file it does
not.  For the control group `/app` with the one member line `1` the cycle returns no error,
the membership file is opened, and it is never closed. -/
theorem membership_file_left_open :
    (∀ (file key : String) (w : Nat) (readErr : Bool) (ls : List Line),
      Event.closed file ∈ (readLoop file key w readErr ls).1
        ↔ (readLoop file key w readErr ls).2 ≠ none) ∧
    ((cgroupWith none none).Collect sampleNew (oneGroup ["1"]) [] allEnabled).err = none ∧
    Event.opened "/sys/fs/cgroup/cpu/app/cgroup.procs"
      ∈ ((cgroupWith none none).Collect sampleNew (oneGroup ["1"]) [] allEnabled).trace ∧
    Event.closed "/sys/fs/cgroup/cpu/app/cgroup.procs"
      ∉ ((cgroupWith none none).Collect sampleNew (oneGroup ["1"]) [] allEnabled).trace := by
  exact ⟨closed_mem_readLoop, by decide, by decide, by decide⟩

/-! ## The limiter (C7) -/

theorem acquiredWeights_append (a b : List Event) :
    acquiredWeights (a ++ b) = acquiredWeights a ++ acquiredWeights b := by
  simp [acquiredWeights]

theorem releasedWeights_append (a b : List Event) :
    releasedWeights (a ++ b) = releasedWeights a ++ releasedWeights b := by
  simp [releasedWeights]

theorem readLoop_weights (file key : String) (w : Nat) (re : Bool) :
    ∀ ls : List Line, acquiredWeights (readLoop file key w re ls).1
      = releasedWeights (readLoop file key w re ls).1 := by
  intro ls
  induction ls with
  | nil => cases re <;> simp [readLoop, acquiredWeights, releasedWeights]
  | cons x rest ih =>
    unfold readLoop
    cases hp : Atoi x.text with
    | none => simp [acquiredWeights, releasedWeights]
    | some pid =>
      cases ha : x.acquireOk with
      | false => simp [acquiredWeights, releasedWeights]
      | true =>
        simp only [if_true]
        have h1 : acquiredWeights (Event.acquire w :: Event.spawn key pid w ::
            (readLoop file key w re rest).1) = w :: acquiredWeights (readLoop file key w re rest).1 := by
          simp [acquiredWeights]
        have h2 : releasedWeights (Event.acquire w :: Event.spawn key pid w ::
            (readLoop file key w re rest).1) = w :: releasedWeights (readLoop file key w re rest).1 := by
          simp [releasedWeights]
        rw [h1, h2, ih]

theorem inspect_weights {M : Type} (c : Cgroup) (mk : (MetricKey → Bool) → GroupedProc M)
    (en : MetricKey → Bool) (sd : String) (tbl : GroupedProcs M) (path : String)
    (isDir : Bool) (procs : Option ProcsFile) :
    acquiredWeights (inspect c mk en sd tbl path isDir procs).trace
      = releasedWeights (inspect c mk en sd tbl path isDir procs).trace := by
  unfold inspect
  cases isDir with
  | false => simp [acquiredWeights, releasedWeights]
  | true =>
    simp only [if_true]
    by_cases hx : c.excluded (relPath sd path) = true
    · simp [hx, acquiredWeights, releasedWeights]
    · simp only [hx, if_false, Bool.false_eq_true]
      by_cases hn : c.normalize (relPath sd path) = ""
      · simp [hn, acquiredWeights, releasedWeights]
      · simp only [hn, ne_eq, not_false_eq_true, if_true, if_false]
        cases procs with
        | none => simp [acquiredWeights, releasedWeights]
        | some pf =>
          simp only [acquiredWeights_append, releasedWeights_append, readLoop_weights]
          cases hl : GroupedProcs.Load tbl (c.normalize (relPath sd path)) <;>
            simp [acquiredWeights, releasedWeights]

theorem walkFn_weights {M : Type} (c : Cgroup) (mk : (MetricKey → Bool) → GroupedProc M)
    (en : MetricKey → Bool) (sd : String) (tbl : GroupedProcs M) (e : Entry) :
    (acquiredWeights (walkFn c mk en sd tbl e).trace).Perm
      (releasedWeights (walkFn c mk en sd tbl e).trace) := by
  unfold walkFn
  by_cases hw : e.walkErr = true
  · simp [hw, acquiredWeights, releasedWeights]
  · simp only [hw, if_false, Bool.false_eq_true]
    cases hi : e.info with
    | none => simp [acquiredWeights, releasedWeights]
    | some isDir =>
      cases ha : e.acquireOk with
      | false => simp [acquiredWeights, releasedWeights]
      | true =>
        simp only [if_true, acquiredWeights_append, releasedWeights_append, inspect_weights]
        have h1 : acquiredWeights [Event.acquire 2] = [2] := by simp [acquiredWeights]
        have h2 : acquiredWeights [Event.release 2] = [] := by simp [acquiredWeights]
        have h3 : releasedWeights [Event.acquire 2] = [] := by simp [releasedWeights]
        have h4 : releasedWeights [Event.release 2] = [2] := by simp [releasedWeights]
        rw [h1, h2, h3, h4]
        simp only [List.append_nil, List.nil_append]
        exact List.perm_append_comm

theorem Walk_weights {M : Type} (c : Cgroup) (mk : (MetricKey → Bool) → GroupedProc M)
    (en : MetricKey → Bool) (sd : String) :
    ∀ (es : List Entry) (tbl : GroupedProcs M),
      (acquiredWeights (Walk (walkFn c mk en sd) tbl es).trace).Perm
        (releasedWeights (Walk (walkFn c mk en sd) tbl es).trace) := by
  intro es
  induction es with
  | nil => intro tbl; simp [Walk, acquiredWeights, releasedWeights]
  | cons e es ih =>
    intro tbl
    unfold Walk
    cases he : (walkFn c mk en sd tbl e).err with
    | some err => simpa [he] using walkFn_weights c mk en sd tbl e
    | none =>
      simp only [he, acquiredWeights_append, releasedWeights_append]
      exact (walkFn_weights c mk en sd tbl e).append (ih _)

theorem collectLoop_weights {M : Type} (c : Cgroup) (mk : (MetricKey → Bool) → GroupedProc M)
    (en : MetricKey → Bool) (fs : String → List Entry) :
    ∀ (ss : List String) (tbl : GroupedProcs M),
      (acquiredWeights (collectLoop c mk en fs tbl ss).trace).Perm
        (releasedWeights (collectLoop c mk en fs tbl ss).trace) := by
  intro ss
  induction ss with
  | nil => intro tbl; simp [collectLoop, acquiredWeights, releasedWeights]
  | cons s ss ih =>
    intro tbl
    unfold collectLoop
    cases he : (Walk (walkFn c mk en (c.searchDir s)) tbl (fs (c.searchDir s))).err with
    | some err => simpa [he] using Walk_weights c mk en _ _ tbl
    | none =>
      simp only [he, acquiredWeights_append, releasedWeights_append]
      exact (Walk_weights c mk en _ _ tbl).append (ih _)

theorem limiterAfter_eq :
    ∀ (tr : List Event) (held : Int),
      limiterAfter held tr
        = held + ((acquiredWeights tr).sum : Nat) - ((releasedWeights tr).sum : Nat) := by
  intro tr
  induction tr with
  | nil => intro held; simp [limiterAfter, acquiredWeights, releasedWeights]
  | cons ev tr ih =>
    intro held
    cases ev <;>
      simp only [limiterAfter, ih, acquiredWeights, releasedWeights, List.filterMap_cons,
        List.sum_cons, Nat.cast_add] <;> ring

theorem walkFn_bracket {M : Type} (c : Cgroup) (mk : (MetricKey → Bool) → GroupedProc M)
    (en : MetricKey → Bool) (sd : String) (tbl : GroupedProcs M) (e : Entry) :
    (walkFn c mk en sd tbl e).trace = [] ∨
    ∃ mid, (walkFn c mk en sd tbl e).trace = Event.acquire 2 :: (mid ++ [Event.release 2]) ∧
      acquiredWeights mid = releasedWeights mid := by
  unfold walkFn
  by_cases hw : e.walkErr = true
  · left; simp [hw]
  · simp only [hw, if_false, Bool.false_eq_true]
    cases hi : e.info with
    | none => left; rfl
    | some isDir =>
      cases ha : e.acquireOk with
      | false => left; simp
      | true =>
        right
        exact ⟨(inspect c mk en sd tbl e.path isDir e.procs).trace, by simp,
          inspect_weights c mk en sd tbl e.path isDir e.procs⟩

/-- C7: in every cycle of `Cgroup.Collect`, with or without an error, the weights of the
successful acquisitions are, one for one, the weights released, by the deferred release of
the walk callback (weight 2 per inspected entry) and by the spawned reads on completion
(the weight of the record, per process ID); so once the spawned reads have finished the
outstanding weight of the limiter is what it was before the cycle.  Every invocation of the
callback that takes the traversal weight releases it as its last effect, and what it
acquires in between is what the reads it spawns release. -/
theorem collect_releases_what_it_acquires {M : Type} (c : Cgroup)
    (NewGroupedProc : (MetricKey → Bool) → GroupedProc M) (fs : String → List Entry)
    (gprocs : GroupedProcs M) (enabled : MetricKey → Bool) (held : Int) :
    (acquiredWeights (c.Collect NewGroupedProc fs gprocs enabled).trace).Perm
      (releasedWeights (c.Collect NewGroupedProc fs gprocs enabled).trace) ∧
    limiterAfter held (c.Collect NewGroupedProc fs gprocs enabled).trace = held ∧
    ∀ (searchDir : String) (tbl : GroupedProcs M) (e : Entry),
      (walkFn c NewGroupedProc enabled searchDir tbl e).trace = [] ∨
      ∃ mid, (walkFn c NewGroupedProc enabled searchDir tbl e).trace
          = Event.acquire 2 :: (mid ++ [Event.release 2]) ∧
        acquiredWeights mid = releasedWeights mid := by
  have hp := collectLoop_weights c NewGroupedProc enabled fs Subsystems gprocs
  refine ⟨hp, ?_, fun sd tbl e => walkFn_bracket c NewGroupedProc enabled sd tbl e⟩
  rw [limiterAfter_eq]
  have hs : (acquiredWeights (c.Collect NewGroupedProc fs gprocs enabled).trace).sum
      = (releasedWeights (c.Collect NewGroupedProc fs gprocs enabled).trace).sum :=
    List.Perm.sum_eq hp
  rw [hs]
  ring

/-! ## The process-name strategy and the emission pass (C8, C9) -/

theorem keys_Store {M : Type} (key : String) (v : GroupedProc M) :
    ∀ t : GroupedProcs M,
      (t.Store key v).keys = if key ∈ t.keys then t.keys else t.keys ++ [key] := by
  intro t
  induction t with
  | nil => simp [GroupedProcs.Store, GroupedProcs.keys]
  | cons kv rest ih =>
    obtain ⟨k, w⟩ := kv
    unfold GroupedProcs.Store
    by_cases hk : k = key
    · subst hk
      simp [GroupedProcs.keys]
    · have hk2 : ¬ key = k := fun h => hk h.symm
      have ih2 : List.map Prod.fst (GroupedProcs.Store rest key v)
          = if key ∈ List.map Prod.fst rest then List.map Prod.fst rest
            else List.map Prod.fst rest ++ [key] := ih
      simp only [hk, if_false, GroupedProcs.keys, List.map_cons, List.mem_cons, hk2, false_or,
        ih2]
      split <;> simp

theorem nodup_keys_Store {M : Type} (key : String) (v : GroupedProc M) (t : GroupedProcs M)
    (h : t.keys.Nodup) : (t.Store key v).keys.Nodup := by
  rw [keys_Store]
  split
  · exact h
  · rename_i hk
    exact List.Nodup.append h (List.nodup_singleton _) (by simpa using hk)

theorem visit_err {M : Type} (mk : (MetricKey → Bool) → GroupedProc M) (en : MetricKey → Bool)
    (acc : NameOutcome M) (e : ProcEntry) :
    (ProcStatusName.visit mk en acc e).err = acc.err := by
  unfold ProcStatusName.visit
  split
  · split <;> rfl
  · rfl

theorem visit_keys {M : Type} (mk : (MetricKey → Bool) → GroupedProc M) (en : MetricKey → Bool)
    (acc : NameOutcome M) (e : ProcEntry) (k : String) :
    k ∈ (ProcStatusName.visit mk en acc e).table.keys
      ↔ k ∈ acc.table.keys ∨ (isNumericName e.name = true ∧ e.status = some k) := by
  unfold ProcStatusName.visit
  by_cases hn : isNumericName e.name = true
  · cases hs : e.status with
    | none => simp [hn]
    | some nm =>
      simp only [hn, if_true, mem_keys_Store, true_and, Option.some.injEq]
      constructor
      · rintro (h | h)
        · exact Or.inl h
        · exact Or.inr h.symm
      · rintro (h | h)
        · exact Or.inl h
        · exact Or.inr h.symm
  · simp [hn]

theorem visit_nodup {M : Type} (mk : (MetricKey → Bool) → GroupedProc M) (en : MetricKey → Bool)
    (acc : NameOutcome M) (e : ProcEntry) (h : acc.table.keys.Nodup) :
    (ProcStatusName.visit mk en acc e).table.keys.Nodup := by
  unfold ProcStatusName.visit
  split
  · split
    · exact h
    · exact nodup_keys_Store _ _ _ h
  · exact h

theorem foldl_visit {M : Type} (mk : (MetricKey → Bool) → GroupedProc M) (en : MetricKey → Bool) :
    ∀ (es : List ProcEntry) (acc : NameOutcome M),
      (es.foldl (ProcStatusName.visit mk en) acc).err = acc.err ∧
      (acc.table.keys.Nodup → (es.foldl (ProcStatusName.visit mk en) acc).table.keys.Nodup) ∧
      ∀ k, k ∈ (es.foldl (ProcStatusName.visit mk en) acc).table.keys
        ↔ k ∈ acc.table.keys ∨ ∃ e ∈ es, isNumericName e.name = true ∧ e.status = some k := by
  intro es
  induction es with
  | nil => intro acc; simp
  | cons e es ih =>
    intro acc
    obtain ⟨h1, h2, h3⟩ := ih (ProcStatusName.visit mk en acc e)
    simp only [List.foldl_cons]
    refine ⟨by rw [h1, visit_err], fun hn => h2 (visit_nodup mk en acc e hn), fun k => ?_⟩
    rw [h3, visit_keys]
    simp only [List.mem_cons, exists_eq_or_imp]
    tauto

/-- C8: a cycle of the process-name strategy on an empty table returns no error, and the
group names of the table are exactly the registered names of the numeric entries under the
process root, each once; for the root with the processes `nginx` and `mysqld` the table has
exactly the two names `nginx` and `mysqld`. -/
theorem procStatusName_collect_keys :
    (∀ {M : Type} (p : ProcStatusName) (NewGroupedProc : (MetricKey → Bool) → GroupedProc M)
      (root : Option (List ProcEntry)) (enabled : MetricKey → Bool),
      (p.Collect NewGroupedProc root [] enabled).err = none ∧
      (p.Collect NewGroupedProc root [] enabled).table.keys.Nodup ∧
      ∀ k, k ∈ (p.Collect NewGroupedProc root [] enabled).table.keys
        ↔ ∃ e ∈ root.getD [], isNumericName e.name = true ∧ e.status = some k) ∧
    (NewProcStatusName.Collect sampleNew (some fixtureProc) [] allEnabled).table.keys
      = ["nginx", "mysqld"] := by
  refine ⟨?_, by decide⟩
  intro M p mk root enabled
  cases root with
  | none => simp [ProcStatusName.Collect, GroupedProcs.keys]
  | some entries =>
    obtain ⟨h1, h2, h3⟩ := foldl_visit mk enabled entries ⟨[], [], none⟩
    refine ⟨h1, h2 (by simp [GroupedProcs.keys]), fun k => ?_⟩
    have := h3 k
    simpa [ProcStatusName.Collect, GroupedProcs.keys] using this

theorem emitRecord_attempts {M D S : Type}
    (sc : M → List (String × D) → String → String → List S × Bool)
    (descs : List (String × D)) (name group : String) (enabled : MetricKey → Bool) :
    ∀ ms : List (MetricKey × M),
      (emitRecord sc descs name group enabled ms).attempts
        = (ms.filter (fun km => enabled km.1)).map (fun km => ⟨name, group, km.1⟩) := by
  intro ms
  induction ms with
  | nil => simp [emitRecord]
  | cons km rest ih =>
    obtain ⟨key, metric⟩ := km
    unfold emitRecord
    by_cases he : enabled key = true
    · simp only [he, if_true, List.filter_cons, List.map_cons]
      cases (sc metric descs name group).2 <;> simp [ih]
    · simp [he, ih]

theorem emitRecord_sent {M D S : Type}
    (sc : M → List (String × D) → String → String → List S × Bool)
    (descs : List (String × D)) (name group : String) (enabled : MetricKey → Bool) (x : S) :
    ∀ ms : List (MetricKey × M),
      x ∈ (emitRecord sc descs name group enabled ms).sent
        ↔ ∃ k m, (k, m) ∈ ms ∧ enabled k = true ∧ x ∈ (sc m descs name group).1 := by
  intro ms
  induction ms with
  | nil => simp [emitRecord]
  | cons km rest ih =>
    obtain ⟨key, metric⟩ := km
    unfold emitRecord
    by_cases he : enabled key = true
    · have hs : x ∈ (match (sc metric descs name group).2 with
          | true => (⟨⟨name, group, key⟩ :: (emitRecord sc descs name group enabled rest).attempts,
              (sc metric descs name group).1 ++ (emitRecord sc descs name group enabled rest).sent⟩ :
              Emission S)
          | false => ⟨⟨name, group, key⟩ :: (emitRecord sc descs name group enabled rest).attempts,
              (sc metric descs name group).1 ++ (emitRecord sc descs name group enabled rest).sent⟩).sent
          ↔ x ∈ (sc metric descs name group).1
            ∨ x ∈ (emitRecord sc descs name group enabled rest).sent := by
        cases (sc metric descs name group).2 <;> simp
      simp only [he, if_true]
      rw [hs, ih]
      constructor
      · rintro (h | ⟨k, m, hm, hk, hx⟩)
        · exact ⟨key, metric, List.mem_cons_self _ _, he, h⟩
        · exact ⟨k, m, List.mem_cons_of_mem _ hm, hk, hx⟩
      · rintro ⟨k, m, hm, hk, hx⟩
        rcases List.mem_cons.1 hm with h | h
        · cases h; exact Or.inl hx
        · exact Or.inr ⟨k, m, h, hk, hx⟩
    · simp only [he, if_false, Bool.false_eq_true]
      rw [ih]
      constructor
      · rintro ⟨k, m, hm, hk, hx⟩
        exact ⟨k, m, List.mem_cons_of_mem _ hm, hk, hx⟩
      · rintro ⟨k, m, hm, hk, hx⟩
        rcases List.mem_cons.1 hm with h | h
        · cases h; exact absurd hk he
        · exact ⟨k, m, h, hk, hx⟩

theorem emitRecord_attempts_mem {M D S : Type}
    (sc : M → List (String × D) → String → String → List S × Bool)
    (descs : List (String × D)) (name group : String) (enabled : MetricKey → Bool)
    (a : Attempt) (ms : List (MetricKey × M)) :
    a ∈ (emitRecord sc descs name group enabled ms).attempts
      ↔ ∃ k, k ∈ ms.map Prod.fst ∧ enabled k = true ∧ a = ⟨name, group, k⟩ := by
  rw [emitRecord_attempts]
  constructor
  · intro h
    obtain ⟨km, hkm, rfl⟩ := List.mem_map.1 h
    have hf := List.mem_filter.1 hkm
    exact ⟨km.1, List.mem_map.2 ⟨km, hf.1, rfl⟩, by simpa using hf.2, rfl⟩
  · rintro ⟨k, hk, he, rfl⟩
    obtain ⟨km, hkm, rfl⟩ := List.mem_map.1 hk
    exact List.mem_map.2 ⟨km, List.mem_filter.2 ⟨hkm, by simpa using he⟩, rfl⟩

theorem emitTable_attempts_mem {M D S : Type}
    (sc : M → List (String × D) → String → String → List S × Bool)
    (descs : List (String × D)) (name : String) (a : Attempt) :
    ∀ tbl : GroupedProcs M,
      a ∈ (emitTable sc descs name tbl).attempts
        ↔ ∃ g proc k, (g, proc) ∈ tbl ∧ k ∈ proc.Metrics.map Prod.fst ∧ proc.Enabled k = true
            ∧ a = ⟨name, g, k⟩ := by
  intro tbl
  induction tbl with
  | nil => simp [emitTable]
  | cons gp rest ih =>
    obtain ⟨group, proc⟩ := gp
    simp only [emitTable, List.mem_append, ih, emitRecord_attempts_mem, List.mem_cons,
      Prod.mk.injEq]
    constructor
    · rintro (⟨k, hm, he, ha⟩ | ⟨g, p, k, hp, hm, he, ha⟩)
      · exact ⟨group, proc, k, Or.inl ⟨rfl, rfl⟩, hm, he, ha⟩
      · exact ⟨g, p, k, Or.inr hp, hm, he, ha⟩
    · rintro ⟨g, p, k, (⟨hg, hp⟩ | hp), hm, he, ha⟩
      · subst hg hp
        exact Or.inl ⟨k, hm, he, ha⟩
      · exact Or.inr ⟨g, p, k, hp, hm, he, ha⟩

theorem emitTable_sent_mem {M D S : Type}
    (sc : M → List (String × D) → String → String → List S × Bool)
    (descs : List (String × D)) (name : String) (x : S) :
    ∀ tbl : GroupedProcs M,
      x ∈ (emitTable sc descs name tbl).sent
        ↔ ∃ g proc k m, (g, proc) ∈ tbl ∧ (k, m) ∈ proc.Metrics ∧ proc.Enabled k = true
            ∧ x ∈ (sc m descs name g).1 := by
  intro tbl
  induction tbl with
  | nil => simp [emitTable]
  | cons gp rest ih =>
    obtain ⟨group, proc⟩ := gp
    simp only [emitTable, List.mem_append, ih, emitRecord_sent, List.mem_cons, Prod.mk.injEq]
    constructor
    · rintro (⟨k, m, hm, he, hx⟩ | ⟨g, p, k, m, hp, hm, he, hx⟩)
      · exact ⟨group, proc, k, m, Or.inl ⟨rfl, rfl⟩, hm, he, hx⟩
      · exact ⟨g, p, k, m, Or.inr hp, hm, he, hx⟩
    · rintro ⟨g, p, k, m, (⟨hg, hp⟩ | hp), hm, he, hx⟩
      · subst hg hp
        exact Or.inl ⟨k, m, hm, he, hx⟩
      · exact Or.inr ⟨g, p, k, m, hp, hm, he, hx⟩

theorem emitTable_attempts_indep {M D S : Type}
    (sc other : M → List (String × D) → String → String → List S × Bool)
    (descs : List (String × D)) (name : String) :
    ∀ tbl : GroupedProcs M,
      (emitTable other descs name tbl).attempts = (emitTable sc descs name tbl).attempts := by
  intro tbl
  induction tbl with
  | nil => simp [emitTable]
  | cons gp rest ih =>
    obtain ⟨group, proc⟩ := gp
    simp only [emitTable, emitRecord_attempts, ih]

theorem emitTable_attempts_nodup {M D S : Type}
    (sc : M → List (String × D) → String → String → List S × Bool)
    (descs : List (String × D)) (name : String) :
    ∀ tbl : GroupedProcs M, tbl.keys.Nodup →
      (∀ gp ∈ tbl, (gp.2.Metrics.map Prod.fst).Nodup) →
      (emitTable sc descs name tbl).attempts.Nodup := by
  intro tbl
  induction tbl with
  | nil => intro _ _; simp [emitTable]
  | cons gp rest ih =>
    obtain ⟨group, proc⟩ := gp
    intro hk hm
    have hk2 : group ∉ GroupedProcs.keys rest ∧ (GroupedProcs.keys rest).Nodup := by
      simpa [GroupedProcs.keys] using hk
    have hrest := ih hk2.2 (fun gp hgp => hm gp (List.mem_cons_of_mem _ hgp))
    have hproc : (proc.Metrics.map Prod.fst).Nodup := hm (group, proc) (List.mem_cons_self _ _)
    simp only [emitTable]
    refine List.Nodup.append ?_ hrest ?_
    · rw [emitRecord_attempts]
      have h1 : ((proc.Metrics.filter (fun km => proc.Enabled km.1)).map Prod.fst).Nodup :=
        hproc.sublist ((List.filter_sublist _).map Prod.fst)
      have h2 : (proc.Metrics.filter (fun km => proc.Enabled km.1)).map
            (fun km => (⟨name, group, km.1⟩ : Attempt))
          = ((proc.Metrics.filter (fun km => proc.Enabled km.1)).map Prod.fst).map
            (fun k => (⟨name, group, k⟩ : Attempt)) := by
        simp [List.map_map, Function.comp]
      rw [h2]
      exact h1.map (fun a b hab => by simpa using hab)
    · intro a ha hb
      rw [emitRecord_attempts] at ha
      obtain ⟨km, _, rfl⟩ := List.mem_map.1 ha
      obtain ⟨g, p, k, hp, _, _, hgk⟩ := (emitTable_attempts_mem sc descs name _ rest).1 hb
      have hg : group = g := by
        have := congrArg Attempt.group hgk
        simpa using this
      apply hk2.1
      rw [hg]
      exact List.mem_map.2 ⟨(g, p), hp, rfl⟩

/-- C9 (as amended): on the table the grouper leaves, `GroupedProcCollector.Collect` calls
`SetCollectedMetric`, with the descriptors, the name of the grouper and the group name, on
exactly the accumulators of each record whose kind is enabled on that record: a pair of
group and kind is attempted if and only if the record of the group has an accumulator of
that kind and the kind is enabled on it, so a kind that is enabled on a record without an
accumulator for it is not attempted.  What the calls send is what reaches the channel, also
when other calls fail, and which pairs are attempted does not depend on what the calls
return.  With distinct group names and distinct kinds in each record, as in a map, every
pair is attempted once. -/
theorem collect_attempts_present_enabled {M D S : Type} (c : GroupedProcCollector M D)
    (setCollected : M → List (String × D) → String → String → List S × Bool) :
    (c.Collect setCollected).1.GroupedProcs = (c.Grouper.Collect c.GroupedProcs c.Enabled).1 ∧
    (∀ a : Attempt, a ∈ (c.Collect setCollected).2.attempts
      ↔ ∃ g proc k, (g, proc) ∈ (c.Collect setCollected).1.GroupedProcs
          ∧ k ∈ proc.Metrics.map Prod.fst ∧ proc.Enabled k = true
          ∧ a = ⟨c.Grouper.Name, g, k⟩) ∧
    (∀ x : S, x ∈ (c.Collect setCollected).2.sent
      ↔ ∃ g proc k m, (g, proc) ∈ (c.Collect setCollected).1.GroupedProcs
          ∧ (k, m) ∈ proc.Metrics ∧ proc.Enabled k = true
          ∧ x ∈ (setCollected m c.descs c.Grouper.Name g).1) ∧
    (∀ other : M → List (String × D) → String → String → List S × Bool,
      (c.Collect other).2.attempts = (c.Collect setCollected).2.attempts) ∧
    ((c.Collect setCollected).1.GroupedProcs.keys.Nodup →
      (∀ gp ∈ (c.Collect setCollected).1.GroupedProcs, (gp.2.Metrics.map Prod.fst).Nodup) →
      (c.Collect setCollected).2.attempts.Nodup) := by
  refine ⟨rfl, fun a => ?_, fun x => ?_, fun other => ?_, fun hk hm => ?_⟩
  · exact emitTable_attempts_mem setCollected c.descs c.Grouper.Name a _
  · exact emitTable_sent_mem setCollected c.descs c.Grouper.Name x _
  · exact emitTable_attempts_indep setCollected other c.descs c.Grouper.Name _
  · exact emitTable_attempts_nodup setCollected c.descs c.Grouper.Name _ hk hm

/-- C9, at a table with the groups `web` (both kinds enabled) and `db` (the I/O kind only),
both accumulators in each record, and an emission that fails for the scheduling
accumulator: the three enabled pairs are attempted, and the I/O samples of both groups
reach the channel although the scheduling emission of `web` failed. -/
theorem collect_attempts_present_enabled_witness :
    (sampleCollector.Collect statFailingEmit).2.attempts
      = [⟨"cgroup", "web", MetricKey.ProcStat⟩, ⟨"cgroup", "web", MetricKey.ProcIO⟩,
         ⟨"cgroup", "db", MetricKey.ProcIO⟩] ∧
    (sampleCollector.Collect statFailingEmit).2.sent
      = [("web", MetricKey.ProcIO), ("db", MetricKey.ProcIO)] ∧
    (sampleCollector.Collect statFailingEmit).2.attempts.Nodup ∧
    ∃ g proc k, (g, proc) ∈ (sampleCollector.Collect statFailingEmit).1.GroupedProcs
      ∧ k ∈ proc.Metrics.map Prod.fst ∧ proc.Enabled k = true
      ∧ (⟨"cgroup", "db", MetricKey.ProcIO⟩ : Attempt) = ⟨sampleCollector.Grouper.Name, g, k⟩ :=
  ⟨by decide, by decide,
   (collect_attempts_present_enabled sampleCollector statFailingEmit).2.2.2.2
     (by decide) (by decide),
   ((collect_attempts_present_enabled sampleCollector statFailingEmit).2.1
     ⟨"cgroup", "db", MetricKey.ProcIO⟩).1 (by decide)⟩

/-- C9 (as stated) fails: on a record of group `web` with both kinds enabled and the I/O
accumulator only, the scheduling kind is enabled on the record and no emission is attempted
for it; the I/O pair is the only one attempted. -/
theorem collect_enabled_without_accumulator_counterexample :
    (partialCollector.Collect statFailingEmit).1.GroupedProcs.keys = ["web"] ∧
    (partialCollector.Collect statFailingEmit).1.GroupedProcs.all
      (fun gp => gp.2.Enabled MetricKey.ProcStat) = true ∧
    (⟨"cgroup", "web", MetricKey.ProcStat⟩ : Attempt)
      ∉ (partialCollector.Collect statFailingEmit).2.attempts ∧
    (partialCollector.Collect statFailingEmit).2.attempts
      = [⟨"cgroup", "web", MetricKey.ProcIO⟩] := by
  decide

end GroupedProcessExporter
